import Mathlib

/-!
Verification of the chessmind chess engine (Rust sources under `src/`)
against its natural-language specification.

The development shallowly embeds the relevant Rust code:

* `src/pieces.rs`   — `Color`, `PieceType`, `Piece`
* `src/types.rs`    — packed 16-bit `Move`, `UndoState`, piece values, `Square`
* `src/board.rs`    — `Board` (squares, bitboards, Zobrist hash, castling,
  en passant), `set_index`, `make_move_fast`, `unmake_move_fast`,
  `make_move_state`, `unmake_move`, `pseudo_legal_moves`, `in_check`,
  `is_legal`, attack queries
* `src/movegen.rs`  — `generate_moves_fast` and the attack tables
* `src/eval.rs`     — packed middlegame/endgame `Score` and the evaluator
* `src/transposition.rs` — `Table` (store/get policy) and the Zobrist keys
* `src/engine.rs`   — `TimeManager::calculate_time`, `lmr_value`, `pvs`,
  `quiescence`, move scoring, SEE
* `src/game.rs`     — `Game::make_move`

Machine integers are modelled as `Nat` (unsigned) or `Int` (signed) with
explicit reductions modulo `2^w` exactly where the Rust code can wrap.
Rust functions that can panic (`unwrap` on an empty square, array index out
of bounds that the caller rules out) are embedded as `Option`-returning
functions, `none` marking the panic.
-/

namespace Chessmind

/-! ## pieces.rs -/

inductive Color where
  | White
  | Black
deriving DecidableEq, Repr

inductive PieceType where
  | Pawn
  | Knight
  | Bishop
  | Rook
  | Queen
  | King
deriving DecidableEq, Repr

structure Piece where
  piece_type : PieceType
  color : Color
deriving DecidableEq, Repr

/-- `engine.rs` / `board.rs`: the opposite color. -/
def opposite (c : Color) : Color :=
  match c with
  | .White => .Black
  | .Black => .White

/-! ## board.rs: index helpers -/

/-- `board.rs::color_idx`. -/
def color_idx (c : Color) : Nat :=
  match c with
  | .White => 0
  | .Black => 1

/-- `board.rs::piece_index`. -/
def piece_index (pt : PieceType) : Nat :=
  match pt with
  | .Pawn => 0
  | .Knight => 1
  | .Bishop => 2
  | .Rook => 3
  | .Queen => 4
  | .King => 5

/-- `board.rs::Board::piece_type_from_idx`. -/
def piece_type_from_idx (idx : Nat) : PieceType :=
  match idx with
  | 0 => .Pawn
  | 1 => .Knight
  | 2 => .Bishop
  | 3 => .Rook
  | 4 => .Queen
  | _ => .King

/-- `board.rs::sq_mask`: `1u64 << (y * 8 + x)`. -/
def sq_mask (x y : Nat) : Nat := 2 ^ (y * 8 + x)

/-- All 64 bits set: the value of `!0u64`; `!mask` is `MASK64 ^^^ mask`. -/
def MASK64 : Nat := 2 ^ 64 - 1

/-! ## types.rs: packed 16-bit moves -/

/-- `types.rs::Move`: a packed 16-bit move
`bits = flags << 12 | to << 6 | from`. -/
structure Move where
  bits : Nat
deriving DecidableEq, Repr

namespace Move

def FLAG_NORMAL : Nat := 0b0000
def FLAG_DOUBLE_PUSH : Nat := 0b0001
def FLAG_KING_CASTLE : Nat := 0b0010
def FLAG_QUEEN_CASTLE : Nat := 0b0011
def FLAG_CAPTURE : Nat := 0b0100
def FLAG_EP_CAPTURE : Nat := 0b0101
def FLAG_PROMO_KNIGHT : Nat := 0b1000
def FLAG_PROMO_BISHOP : Nat := 0b1001
def FLAG_PROMO_ROOK : Nat := 0b1010
def FLAG_PROMO_QUEEN : Nat := 0b1011
def FLAG_PROMO_KNIGHT_CAP : Nat := 0b1100
def FLAG_PROMO_BISHOP_CAP : Nat := 0b1101
def FLAG_PROMO_ROOK_CAP : Nat := 0b1110
def FLAG_PROMO_QUEEN_CAP : Nat := 0b1111

/-- `Move::new(from, to, flags)`.  The `u8` arguments are masked with
`0x3F`, the flags with `0xF`, exactly as in the source. -/
def new (f t : Nat) (flags : Nat) : Move :=
  ⟨(flags % 16) * 4096 + (t % 64) * 64 + (f % 64)⟩

def normal (f t : Nat) : Move := new f t FLAG_NORMAL

def capture (f t : Nat) : Move := new f t FLAG_CAPTURE

/-- `Move::promotion(from, to, piece, is_capture)`. -/
def promotion (f t : Nat) (piece : PieceType) (is_capture : Bool) : Move :=
  let base_flag :=
    match piece with
    | .Knight => FLAG_PROMO_KNIGHT
    | .Bishop => FLAG_PROMO_BISHOP
    | .Rook => FLAG_PROMO_ROOK
    | _ => FLAG_PROMO_QUEEN
  let flag := if is_capture then base_flag ||| 0b0100 else base_flag
  new f t flag

def from_sq (m : Move) : Nat := m.bits % 64

def to_sq (m : Move) : Nat := (m.bits / 64) % 64

def flags (m : Move) : Nat := (m.bits / 4096) % 16

def is_capture (m : Move) : Bool :=
  let f := m.flags
  f = FLAG_CAPTURE || f = FLAG_EP_CAPTURE || f ≥ FLAG_PROMO_KNIGHT_CAP

def is_promotion (m : Move) : Bool := m.flags ≥ FLAG_PROMO_KNIGHT

def is_ep (m : Move) : Bool := m.flags = FLAG_EP_CAPTURE

def is_castle (m : Move) : Bool :=
  m.flags = FLAG_KING_CASTLE || m.flags = FLAG_QUEEN_CASTLE

def is_double_push (m : Move) : Bool := m.flags = FLAG_DOUBLE_PUSH

def promotion_piece (m : Move) : Option PieceType :=
  if m.flags = FLAG_PROMO_KNIGHT ∨ m.flags = FLAG_PROMO_KNIGHT_CAP then some .Knight
  else if m.flags = FLAG_PROMO_BISHOP ∨ m.flags = FLAG_PROMO_BISHOP_CAP then some .Bishop
  else if m.flags = FLAG_PROMO_ROOK ∨ m.flags = FLAG_PROMO_ROOK_CAP then some .Rook
  else if m.flags = FLAG_PROMO_QUEEN ∨ m.flags = FLAG_PROMO_QUEEN_CAP then some .Queen
  else none

end Move

/-- `types.rs::UndoState`. -/
structure UndoState where
  mv : Move
  captured : Nat
  captured_sq : Nat
  prev_ep : Nat
  prev_castling : Nat
  prev_hash : Nat
deriving DecidableEq, Repr

namespace UndoState

def NO_CAPTURE : Nat := 6
def NO_EP : Nat := 64

def has_capture (u : UndoState) : Bool := u.captured ≠ NO_CAPTURE

end UndoState

/-! ## transposition.rs: Zobrist keys

`ZOBRIST` is generated once by an xorshift-multiply PRNG from the seed
`0xcbf29ce484222325`; entry `[c][p][s]` is the `(c*384 + p*64 + s + 1)`-th
iterate of the step function. -/

/-- One step of the PRNG in the `ZOBRIST` initialiser (`u64` wrapping). -/
def zobristStep (seed : Nat) : Nat :=
  let s1 := seed ^^^ (seed / 2 ^ 12)
  let s2 := s1 ^^^ (s1 * 2 ^ 25 % 2 ^ 64)
  let s3 := s2 ^^^ (s2 / 2 ^ 27)
  s3 * 0x2545F4914F6CDD1D % 2 ^ 64

def zobristIter : Nat → Nat
  | 0 => 0xcbf29ce484222325
  | n + 1 => zobristStep (zobristIter n)

/-- `transposition.rs::ZOBRIST[c][p][s]`. -/
def ZOBRIST (c p s : Nat) : Nat := zobristIter (c * 384 + p * 64 + s + 1)

/-- `transposition.rs::ZOBRIST_SIDE`. -/
def ZOBRIST_SIDE : Nat := 0x9d39247e33776d41

/-! ## board.rs: the board -/

/-- `board.rs::Board`.  `squares y x` mirrors `squares[y][x]`;
`bitboards c p` mirrors `bitboards[c][p]` (a `u64`, kept `< 2^64` by the
operations); `castling c s` mirrors `castling[c][s]`. -/
structure Board where
  squares : Nat → Nat → Option Piece
  bitboards : Nat → Nat → Nat
  hash : Nat
  en_passant : Option (Nat × Nat)
  castling : Nat → Nat → Bool

namespace Board

/-- `Board::new()`. -/
def new : Board where
  squares := fun _ _ => none
  bitboards := fun _ _ => 0
  hash := 0
  en_passant := none
  castling := fun _ _ => true

/-- `Board::get_index`. -/
def get_index (b : Board) (x y : Nat) : Option Piece := b.squares y x

/-- `Board::set_index`: updates the square, the two affected bitboards and
the incremental Zobrist hash. -/
def set_index (b : Board) (x y : Nat) (piece : Option Piece) : Board :=
  let mask := sq_mask x y
  let b1 :=
    match b.squares y x with
    | some old =>
      let c := color_idx old.color
      let p := piece_index old.piece_type
      { b with
        bitboards := fun c' p' =>
          if c' = c ∧ p' = p then b.bitboards c' p' &&& (MASK64 ^^^ mask)
          else b.bitboards c' p'
        hash := b.hash ^^^ ZOBRIST c p (y * 8 + x) }
    | none => b
  let b2 := { b1 with squares := fun y' x' =>
    if y' = y ∧ x' = x then piece else b1.squares y' x' }
  match piece with
  | some pce =>
    let c := color_idx pce.color
    let p := piece_index pce.piece_type
    { b2 with
      bitboards := fun c' p' =>
        if c' = c ∧ p' = p then b2.bitboards c' p' ||| mask
        else b2.bitboards c' p'
      hash := b2.hash ^^^ ZOBRIST c p (y * 8 + x) }
  | none => b2

/-- `Board::pack_castling`. -/
def pack_castling (b : Board) : Nat :=
  (if b.castling 0 0 then 1 else 0) +
  (if b.castling 0 1 then 2 else 0) +
  (if b.castling 1 0 then 4 else 0) +
  (if b.castling 1 1 then 8 else 0)

/-- `Board::unpack_castling`. -/
def unpack_castling (b : Board) (c : Nat) : Board :=
  { b with castling := fun i j =>
      if i = 0 ∧ j = 0 then c &&& 1 ≠ 0
      else if i = 0 ∧ j = 1 then c &&& 2 ≠ 0
      else if i = 1 ∧ j = 0 then c &&& 4 ≠ 0
      else if i = 1 ∧ j = 1 then c &&& 8 ≠ 0
      else b.castling i j }

/-- Shared tail of `Board::make_move_fast` after the en-passant /
plain-capture preamble fixed `captured_piece_idx` and `captured_sq`:
castling-right updates, the rook shuttle for castling, the double-push
en-passant target, the promotion piece swap and the two square writes. -/
def make_move_fast_rest (b : Board) (mv : Move) (color : Color) (piece : Piece)
    (captured : Option Piece) (captured_piece_idx captured_sq : Nat)
    (prev_ep prev_castling prev_hash : Nat) : Board × UndoState :=
  let from_x := mv.from_sq % 8
  let from_y := mv.from_sq / 8
  let to_x := mv.to_sq % 8
  let to_y := mv.to_sq / 8
  let cidx := color_idx color
  let b :=
    match piece.piece_type with
    | .King =>
      { b with castling := fun i j =>
          if i = cidx ∧ (j = 0 ∨ j = 1) then false else b.castling i j }
    | .Rook =>
      { b with castling := fun i j =>
          if i = cidx ∧ j = 1 ∧ from_x = 0 then false
          else if i = cidx ∧ j = 0 ∧ from_x = 7 then false
          else b.castling i j }
    | _ => b
  let b :=
    if captured.isSome then
      let opp := 1 - cidx
      let b :=
        if to_x = 0 ∧ (to_y = 0 ∨ to_y = 7) ∧ to_y = (if opp = 0 then 0 else 7) then
          { b with castling := fun i j =>
              if i = opp ∧ j = 1 then false else b.castling i j }
        else b
      if to_x = 7 ∧ (to_y = 0 ∨ to_y = 7) ∧ to_y = (if opp = 0 then 0 else 7) then
        { b with castling := fun i j =>
            if i = opp ∧ j = 0 then false else b.castling i j }
      else b
    else b
  let b := { b with en_passant := none }
  let b :=
    if mv.is_castle then
      let rank := from_y
      if mv.flags = Move.FLAG_KING_CASTLE then
        let rook := b.get_index 7 rank
        (b.set_index 5 rank rook).set_index 7 rank none
      else
        let rook := b.get_index 0 rank
        (b.set_index 3 rank rook).set_index 0 rank none
    else b
  let b :=
    if mv.is_double_push then
      let ep_y := if color = .White then from_y + 1 else from_y - 1
      { b with en_passant := some (from_x, ep_y) }
    else b
  let moving_piece :=
    match mv.promotion_piece with
    | some promo_type => { piece_type := promo_type, color := color }
    | none => piece
  let b := (b.set_index to_x to_y (some moving_piece)).set_index from_x from_y none
  (b, { mv := mv, captured := captured_piece_idx, captured_sq := captured_sq,
        prev_ep := prev_ep, prev_castling := prev_castling, prev_hash := prev_hash })

/-- `Board::make_move_fast`.  `none` models the panics of the two
`unwrap`s (no piece on the from-square / no pawn behind the en-passant
target). -/
def make_move_fast (b : Board) (mv : Move) (color : Color) :
    Option (Board × UndoState) :=
  let from_x := mv.from_sq % 8
  let from_y := mv.from_sq / 8
  let to_x := mv.to_sq % 8
  let to_y := mv.to_sq / 8
  match b.get_index from_x from_y with
  | none => none
  | some piece =>
    let captured := b.get_index to_x to_y
    let prev_ep :=
      match b.en_passant with
      | some (x, y) => y * 8 + x
      | none => UndoState.NO_EP
    let prev_castling := b.pack_castling
    let prev_hash := b.hash
    if mv.is_ep then
      let cap_y := if color = .White then to_y - 1 else to_y + 1
      match b.get_index to_x cap_y with
      | none => none
      | some cap_piece =>
        some (make_move_fast_rest (b.set_index to_x cap_y none) mv color piece
          captured (piece_index cap_piece.piece_type) (cap_y * 8 + to_x)
          prev_ep prev_castling prev_hash)
    else
      let captured_piece_idx :=
        match captured with
        | some cap => piece_index cap.piece_type
        | none => UndoState.NO_CAPTURE
      some (make_move_fast_rest b mv color piece captured captured_piece_idx
        mv.to_sq prev_ep prev_castling prev_hash)

/-- `Board::unmake_move_fast`.  `none` models the panic of the `unwrap` on
an empty to-square. -/
def unmake_move_fast (b : Board) (state : UndoState) (color : Color) :
    Option Board :=
  let mv := state.mv
  let from_x := mv.from_sq % 8
  let from_y := mv.from_sq / 8
  let to_x := mv.to_sq % 8
  let to_y := mv.to_sq / 8
  match b.get_index to_x to_y with
  | none => none
  | some moving_piece0 =>
    let moving_piece :=
      if mv.is_promotion then { moving_piece0 with piece_type := PieceType.Pawn }
      else moving_piece0
    let b := (b.set_index from_x from_y (some moving_piece)).set_index to_x to_y none
    let b :=
      if state.has_capture then
        let cap_x := state.captured_sq % 8
        let cap_y := state.captured_sq / 8
        let opp_color := if color = .White then Color.Black else Color.White
        let cap_type := piece_type_from_idx state.captured
        b.set_index cap_x cap_y (some { piece_type := cap_type, color := opp_color })
      else b
    let b :=
      if mv.is_castle then
        let rank := from_y
        if mv.flags = Move.FLAG_KING_CASTLE then
          let rook := b.get_index 5 rank
          (b.set_index 7 rank rook).set_index 5 rank none
        else
          let rook := b.get_index 3 rank
          (b.set_index 0 rank rook).set_index 3 rank none
      else b
    let b := { b with en_passant :=
      (if state.prev_ep = UndoState.NO_EP then none
       else some (state.prev_ep % 8, state.prev_ep / 8)) }
    let b := b.unpack_castling state.prev_castling
    some { b with hash := state.prev_hash }

/-- `Board::algebraic_to_index`.  The source checks the two bytes of the
string; all inputs of interest are ASCII, where bytes and chars agree. -/
def algebraic_to_index (pos : String) : Option (Nat × Nat) :=
  match pos.data with
  | [file, rank] =>
    if 'a' ≤ file ∧ file ≤ 'h' then
      if '1' ≤ rank ∧ rank ≤ '8' then
        some (file.toNat - 97, rank.toNat - 49)
      else none
    else none
  | _ => none

/-- `Board::index_to_algebraic`. -/
def index_to_algebraic (x y : Nat) : Option String :=
  if x < 8 ∧ y < 8 then
    some (String.mk [Char.ofNat (97 + x), Char.ofNat (49 + y)])
  else none

end Board

/-- `board.rs::MoveState` (the undo record of `make_move_state`).
`endp` mirrors the Rust field `end`, a reserved word here. -/
structure MoveState where
  start : Nat × Nat
  endp : Nat × Nat
  captured : Option Piece
  captured_sq : Option (Nat × Nat)
  prev_en_passant : Option (Nat × Nat)
  prev_castling : Nat → Nat → Bool
  rook_move : Option ((Nat × Nat) × (Nat × Nat))

namespace Board

/-- `Board::make_move_state`.  Returns the `Option<MoveState>` of the
source paired with the mutated board (`&mut self` threading); the `?`
early exits leave the board unchanged.  The `(sy as isize + 2*dir_y) as
usize == ey` double-push test is modelled over `Int` (a negative isize
cast to usize can never equal `ey < 8`). -/
def make_move_state (b : Board) (start endp : String) :
    Option MoveState × Board :=
  match algebraic_to_index start, algebraic_to_index endp with
  | some (sx, sy), some (ex, ey) =>
    match b.get_index sx sy with
    | none => (none, b)
    | some piece =>
      let captured := b.get_index ex ey
      let captured_sq0 : Option (Nat × Nat) :=
        if captured.isSome then some (ex, ey) else none
      let prev_ep := b.en_passant
      let prev_castling := b.castling
      let cidx := color_idx piece.color
      let rookKing : Option ((Nat × Nat) × (Nat × Nat)) × Board :=
        match piece.piece_type with
        | .King =>
          let b := { b with castling := fun i j =>
            if i = cidx ∧ (j = 0 ∨ j = 1) then false else b.castling i j }
          if ((sx : Int) - ex).natAbs = 2 then
            if ex = 6 then
              let rook := b.get_index 7 sy
              (some ((7, sy), (5, sy)),
                (b.set_index 5 sy rook).set_index 7 sy none)
            else if ex = 2 then
              let rook := b.get_index 0 sy
              (some ((0, sy), (3, sy)),
                (b.set_index 3 sy rook).set_index 0 sy none)
            else (none, b)
          else (none, b)
        | .Rook =>
          let b :=
            if sx = 0 then
              { b with castling := fun i j =>
                  if i = cidx ∧ j = 1 then false else b.castling i j }
            else b
          let b :=
            if sx = 7 then
              { b with castling := fun i j =>
                  if i = cidx ∧ j = 0 then false else b.castling i j }
            else b
          (none, b)
        | _ => (none, b)
      let rook_move := rookKing.1
      let b := rookKing.2
      let b := { b with en_passant := none }
      if piece.piece_type = PieceType.Pawn then
        let dir_y : Int := if piece.color = .White then 1 else -1
        let b :=
          if ((sy : Int) + 2 * dir_y == (ey : Int) && sx == ex &&
              (b.get_index ex ey).isNone) then
            { b with en_passant := some (sx, ((sy : Int) + dir_y).toNat) }
          else b
        match prev_ep with
        | some (epx, epy) =>
          if (ex == epx && ey == epy && (b.get_index ex ey).isNone) then
            let cap_y := if piece.color = .White then ey - 1 else ey + 1
            let cap := b.get_index ex cap_y
            let b := b.set_index ex cap_y none
            let b := b.set_index ex ey (some piece)
            let b := b.set_index sx sy none
            (some { start := (sx, sy), endp := (ex, ey), captured := cap,
                    captured_sq := some (ex, cap_y), prev_en_passant := prev_ep,
                    prev_castling := prev_castling, rook_move := rook_move }, b)
          else
            let b := b.set_index ex ey (some piece)
            let b := b.set_index sx sy none
            (some { start := (sx, sy), endp := (ex, ey), captured := captured,
                    captured_sq := captured_sq0, prev_en_passant := prev_ep,
                    prev_castling := prev_castling, rook_move := rook_move }, b)
        | none =>
          let b := b.set_index ex ey (some piece)
          let b := b.set_index sx sy none
          (some { start := (sx, sy), endp := (ex, ey), captured := captured,
                  captured_sq := captured_sq0, prev_en_passant := prev_ep,
                  prev_castling := prev_castling, rook_move := rook_move }, b)
      else
        let b := b.set_index ex ey (some piece)
        let b := b.set_index sx sy none
        (some { start := (sx, sy), endp := (ex, ey), captured := captured,
                captured_sq := captured_sq0, prev_en_passant := prev_ep,
                prev_castling := prev_castling, rook_move := rook_move }, b)
  | _, _ => (none, b)

/-- `Board::unmake_move`. -/
def unmake_move (b : Board) (state : MoveState) : Board :=
  let moving := b.get_index state.endp.1 state.endp.2
  let b := b.set_index state.start.1 state.start.2 moving
  let b := b.set_index state.endp.1 state.endp.2 none
  let b :=
    match state.captured_sq with
    | some (cx, cy) => b.set_index cx cy state.captured
    | none => b
  let b :=
    match state.rook_move with
    | some ((rsx, rsy), (rex, rey)) =>
      let rook := b.get_index rex rey
      (b.set_index rsx rsy rook).set_index rex rey none
    | none => b
  let b := { b with en_passant := state.prev_en_passant }
  { b with castling := state.prev_castling }

/-- `Board::setup_standard`.  The raw `self.squares[y][x] = None` loop and
`self.bitboards = [[0;6];2]` reset are modelled by clearing the two
fields wholesale; the pieces are then placed through `set_index` in
source order. -/
def setup_standard (b : Board) : Board :=
  let b := { b with
    hash := 0
    squares := fun _ _ => none
    bitboards := fun _ _ => 0 }
  let back : List PieceType :=
    [.Rook, .Knight, .Bishop, .Queen, .King, .Bishop, .Knight, .Rook]
  let b := back.enum.foldl (fun b xpt =>
    let x := xpt.1
    let pt := xpt.2
    let b := b.set_index x 0 (some { piece_type := pt, color := .White })
    let b := b.set_index x 7 (some { piece_type := pt, color := .Black })
    let b := b.set_index x 1 (some { piece_type := .Pawn, color := .White })
    b.set_index x 6 (some { piece_type := .Pawn, color := .Black })) b
  { b with en_passant := none, castling := (fun _ _ => true) }

/-- `board.rs::Board::hash(side)` (defined in transposition.rs):
the stored hash with the side-to-move key XORed in for White. -/
def side_hash (b : Board) (side : Color) : Nat :=
  if side = .White then b.hash ^^^ ZOBRIST_SIDE else b.hash

end Board

/-- The starting position, `Board::new()` + `setup_standard()`. -/
def standardBoard : Board := Board.new.setup_standard


/-! ## Concrete boards for the promotion / rook-capture claims -/

/-- White pawn on e7, white king e1, black king h8 (the promotion test
position of `board.rs`). -/
def boardC2 : Board :=
  ((Board.new.set_index 4 6 (some { piece_type := .Pawn, color := .White })).set_index
    7 7 (some { piece_type := .King, color := .Black })).set_index
    4 0 (some { piece_type := .King, color := .White })

/-- White king e1 and rook h1, black king e8 and rook h8, all castling
rights intact. -/
def boardC3 : Board :=
  (((Board.new.set_index 4 0 (some { piece_type := .King, color := .White })).set_index
    7 0 (some { piece_type := .Rook, color := .White })).set_index
    4 7 (some { piece_type := .King, color := .Black })).set_index
    7 7 (some { piece_type := .Rook, color := .Black })

/-- C2: the claim says every mutating board operation replaces a pawn
reaching the last rank by the promoted piece, for `make_move_fast` and for
`make_move_state` alike.  `make_move_state` does not: moving the white pawn
from e7 to e8 succeeds and leaves a White *Pawn* standing on e8
(`squares[7][4]`), so the board path used by `Game::make_move` never
promotes.  (`make_move_fast` does promote, via `Move::promotion_piece`.) -/
theorem make_move_state_leaves_pawn_on_rank8 :
    (boardC2.make_move_state "e7" "e8").1.isSome = true ∧
    ((boardC2.make_move_state "e7" "e8").2).get_index 4 7 =
      some { piece_type := PieceType.Pawn, color := Color.White } := by
  exact ⟨rfl, rfl⟩

/-- C3: the claim says capturing an enemy rook on its original corner
square clears the captured side's castling right on both board-mutation
paths.  On `boardC3`, White's rook h1 captures Black's rook h8:
`make_move_state("h1","h8")` records the capture but leaves Black's
king-side right (`castling[1][0]`) set, violating the claim, while
`make_move_fast` with the same capture clears it. -/
theorem make_move_state_keeps_castling_after_rook_capture :
    ((boardC3.make_move_state "h1" "h8").1.map (fun st => st.captured)) =
      some (some { piece_type := PieceType.Rook, color := Color.Black }) ∧
    ((boardC3.make_move_state "h1" "h8").2).castling 1 0 = true ∧
    ((boardC3.make_move_fast (Move.capture 7 63) .White).map
      (fun p => p.1.castling 1 0)) = some false := by
  exact ⟨rfl, rfl, rfl⟩

/-! ## eval.rs: packed middlegame/endgame scores

`Score` packs two signed 16-bit values into one `i32`.  `i32` values are
modelled as integers in `[-2^31, 2^31)`; `wrap32` is the release-mode
wrap-around of an `i32` computation, `wrap16` the `as i16` truncation. -/

/-- Reduce an integer to the representative of its class mod `2^32` in
`[-2^31, 2^31)` (release-mode `i32` wrapping). -/
def wrap32 (z : Int) : Int := (z + 2 ^ 31) % 2 ^ 32 - 2 ^ 31

/-- Reduce an integer to the representative of its class mod `2^16` in
`[-2^15, 2^15)` (the `as i16` cast / an `i16`-typed value). -/
def wrap16 (z : Int) : Int := (z + 2 ^ 15) % 2 ^ 16 - 2 ^ 15

/-- `types.rs::Phase`. -/
def TOTAL_PHASE : Int := 4 * 1 + 4 * 1 + 4 * 2 + 2 * 4

/-- `eval.rs::Score`, a packed `i32`. -/
structure Score where
  val : Int
deriving DecidableEq, Repr

namespace Score

def ZERO : Score := ⟨0⟩

/-- `Score::new(mg, eg)`: `((mg as i32) << 16) + (eg as i32)`.  The
arguments are `i16`-typed in the source (hence the `wrap16`); the sum
wraps as an `i32` (release semantics; a debug build would panic on the
one overflowing corner `mg = -32768, eg < 0`). -/
def new (mg eg : Int) : Score := ⟨wrap32 (wrap16 mg * 2 ^ 16 + wrap16 eg)⟩

/-- `Score::make(v)`. -/
def make (v : Int) : Score := new v v

/-- `Score::mg`: `(self.0 + 0x8000) >> 16`, an arithmetic shift, i.e.
floor division of the wrapped sum by `2^16`. -/
def mg (s : Score) : Int := wrap32 (s.val + 0x8000) / 2 ^ 16

/-- `Score::eg`: `(self.0 as i16) as i32`, the sign-extended low half. -/
def eg (s : Score) : Int := wrap16 s.val

/-- `impl Add for Score`: `Score(self.0 + rhs.0)` with `i32` wrap. -/
def add (a b : Score) : Score := ⟨wrap32 (a.val + b.val)⟩

/-- `impl Sub for Score`. -/
def sub (a b : Score) : Score := ⟨wrap32 (a.val - b.val)⟩

/-- `impl Neg for Score`. -/
def neg (a : Score) : Score := ⟨wrap32 (-a.val)⟩

/-- `impl Mul<i32> for Score`. -/
def mulc (a : Score) (r : Int) : Score := ⟨wrap32 (a.val * r)⟩

/-- `Score::taper(phase)`: plain `i32` arithmetic; `/` is Rust's
truncating division (`Int.div`).  No intermediate here can wrap for the
phases and component ranges the evaluator produces. -/
def taper (s : Score) (phase : Int) : Int :=
  Int.tdiv (s.mg * phase + s.eg * (TOTAL_PHASE - phase)) TOTAL_PHASE

/-- A value representable as an `i32` (every Rust `Score` is). -/
def InRange32 (s : Score) : Prop := -2 ^ 31 ≤ s.val ∧ s.val < 2 ^ 31

instance (s : Score) : Decidable s.InRange32 := by
  unfold InRange32; infer_instance

end Score

/-! ## Score packing lemmas (claim C8) -/

theorem wrap16_eq_self (z : Int) (h1 : -2 ^ 15 ≤ z) (h2 : z < 2 ^ 15) :
    wrap16 z = z := by
  unfold wrap16; omega

theorem score_mg_eg_bounds (s : Score) :
    -2 ^ 15 ≤ s.mg ∧ s.mg < 2 ^ 15 ∧ -2 ^ 15 ≤ s.eg ∧ s.eg < 2 ^ 15 := by
  unfold Score.mg Score.eg wrap32 wrap16; omega

theorem score_decomp (s : Score) (h : s.InRange32) :
    wrap32 (s.mg * 2 ^ 16 + s.eg) = s.val := by
  obtain ⟨h1, h2⟩ := h
  unfold Score.mg Score.eg wrap32 wrap16; omega

theorem wrap32_add_left (x y : Int) : wrap32 (wrap32 x + y) = wrap32 (x + y) := by
  unfold wrap32; omega

theorem score_new_components (mg eg : Int)
    (hm1 : -2 ^ 15 ≤ mg) (hm2 : mg < 2 ^ 15) (he1 : -2 ^ 15 ≤ eg) (he2 : eg < 2 ^ 15) :
    (Score.new mg eg).mg = mg ∧ (Score.new mg eg).eg = eg := by
  simp only [Score.new, Score.mg, Score.eg, wrap32, wrap16]
  constructor <;> omega

/-- C8 (amended): `Score::new` packs two signed 16-bit halves and
`Score::mg` / `Score::eg` recover them exactly; addition and negation of
packed scores are componentwise *provided the componentwise results stay
inside the signed 16-bit range* (the unrestricted claim fails: a carry
out of the low half corrupts both halves, see the counterexample). -/
theorem score_pack_componentwise :
    (∀ mg eg : Int, -2 ^ 15 ≤ mg → mg < 2 ^ 15 → -2 ^ 15 ≤ eg → eg < 2 ^ 15 →
      (Score.new mg eg).mg = mg ∧ (Score.new mg eg).eg = eg) ∧
    (∀ a b : Score, a.InRange32 → b.InRange32 →
      -2 ^ 15 ≤ a.mg + b.mg → a.mg + b.mg < 2 ^ 15 →
      -2 ^ 15 ≤ a.eg + b.eg → a.eg + b.eg < 2 ^ 15 →
      (a.add b).mg = a.mg + b.mg ∧ (a.add b).eg = a.eg + b.eg) ∧
    (∀ a : Score, a.InRange32 →
      -2 ^ 15 ≤ -a.mg → -a.mg < 2 ^ 15 → -2 ^ 15 ≤ -a.eg → -a.eg < 2 ^ 15 →
      (a.neg).mg = -a.mg ∧ (a.neg).eg = -a.eg) := by
  refine ⟨score_new_components, ?_, ?_⟩
  · intro a b ha hb hm1 hm2 he1 he2
    have hda := score_decomp a ha
    have hdb := score_decomp b hb
    have key : wrap32 (a.val + b.val) =
        wrap32 ((a.mg + b.mg) * 2 ^ 16 + (a.eg + b.eg)) := by
      conv_lhs => rw [← hda, ← hdb]
      rw [wrap32_add_left]
      rw [show wrap32 (a.mg * 2 ^ 16 + a.eg + wrap32 (b.mg * 2 ^ 16 + b.eg)) =
          wrap32 (wrap32 (b.mg * 2 ^ 16 + b.eg) + (a.mg * 2 ^ 16 + a.eg)) from by
        ring_nf]
      rw [wrap32_add_left]
      ring_nf
    have hmc := score_new_components (a.mg + b.mg) (a.eg + b.eg) hm1 hm2 he1 he2
    unfold Score.new at hmc
    rw [wrap16_eq_self _ hm1 hm2, wrap16_eq_self _ he1 he2] at hmc
    show (Score.mk (wrap32 (a.val + b.val))).mg = _ ∧
      (Score.mk (wrap32 (a.val + b.val))).eg = _
    rw [key]
    exact hmc
  · intro a ha hm1 hm2 he1 he2
    have hda := score_decomp a ha
    have key : wrap32 (-a.val) = wrap32 ((-a.mg) * 2 ^ 16 + (-a.eg)) := by
      conv_lhs => rw [← hda]
      rw [show wrap32 (-wrap32 (a.mg * 2 ^ 16 + a.eg)) =
          wrap32 (wrap32 (a.mg * 2 ^ 16 + a.eg) * (-1) + 0) from by ring_nf]
      rw [show ∀ x y : Int, wrap32 (wrap32 x * (-1) + y) = wrap32 (x * (-1) + y) from ?_]
      · ring_nf
      · intro x y; unfold wrap32; omega
    have hmc := score_new_components (-a.mg) (-a.eg) hm1 hm2 he1 he2
    unfold Score.new at hmc
    rw [wrap16_eq_self _ hm1 hm2, wrap16_eq_self _ he1 he2] at hmc
    show (Score.mk (wrap32 (-a.val))).mg = _ ∧ (Score.mk (wrap32 (-a.val))).eg = _
    rw [key]
    exact hmc

/-- C8 counterexample: componentwise addition fails without the range
condition: adding `new 0 16384` to itself carries out of the low half, so
the sum's `eg` is `-32768`, not `16384 + 16384`, and its `mg` is `1`,
not `0`.  Negation likewise fails at `eg = -32768`. -/
theorem score_add_not_componentwise :
    ((Score.new 0 16384).add (Score.new 0 16384)).eg ≠
      (Score.new 0 16384).eg + (Score.new 0 16384).eg ∧
    ((Score.new 0 16384).add (Score.new 0 16384)).mg ≠
      (Score.new 0 16384).mg + (Score.new 0 16384).mg ∧
    (Score.new 0 (-32768)).neg.eg ≠ -(Score.new 0 (-32768)).eg := by
  refine ⟨?_, ?_, ?_⟩ <;> decide

/-- C8 witness: the componentwise laws applied at concrete scores. -/
theorem score_pack_componentwise_witness :
    ((Score.new 100 (-50)).mg = 100 ∧ (Score.new 100 (-50)).eg = -50) ∧
    (((Score.new 100 50).add (Score.new 30 20)).mg = 130 ∧
      ((Score.new 100 50).add (Score.new 30 20)).eg = 70) := by
  constructor
  · exact score_pack_componentwise.1 100 (-50) (by decide) (by decide) (by decide)
      (by decide)
  · exact score_pack_componentwise.2.1 (Score.new 100 50) (Score.new 30 20)
      (by decide) (by decide) (by decide) (by decide) (by decide) (by decide)

/-! ## engine.rs: TimeConfig and the time manager -/

/-- `engine.rs::TimeConfig` (all `u64`/`u32` fields as `Nat`). -/
structure TimeConfig where
  wtime : Option Nat
  btime : Option Nat
  winc : Option Nat
  binc : Option Nat
  movestogo : Option Nat
  depth : Option Nat
  movetime : Option Nat
  infinite : Bool
deriving DecidableEq, Repr

/-- `TimeManager::calculate_time(time_left_ms, increment_ms, moves_to_go)`:
`u64` arithmetic, so every product and sum wraps modulo `2^64`
(release-mode Rust semantics), returning
`(allocated_ms, max_ms, in_crisis)`. -/
def calculate_time (time_left_ms increment_ms : Nat) (moves_to_go : Option Nat) :
    Nat × Nat × Bool :=
  let estimated_moves :=
    match moves_to_go with
    | some mtg => max mtg 1
    | none =>
      if time_left_ms < 30000 then 15
      else if time_left_ms < 60000 then 20
      else if time_left_ms < 180000 then 25
      else if time_left_ms < 300000 then 30
      else if time_left_ms < 600000 then 35
      else 40
  let base_time := time_left_ms / estimated_moves
  let inc_bonus := increment_ms * 9 % 2 ^ 64 / 10
  let allocated := (base_time + inc_bonus) % 2 ^ 64
  let total_time_estimate := (time_left_ms + increment_ms * 20 % 2 ^ 64) % 2 ^ 64
  let in_crisis : Bool :=
    if total_time_estimate < 300000 then time_left_ms < 1000
    else time_left_ms < 5000
  let allocated := if in_crisis then min (max (time_left_ms / 30) 50) 500 else allocated
  let max_time :=
    if increment_ms > 0 then (time_left_ms / 2 + increment_ms) % 2 ^ 64
    else time_left_ms * 3 % 2 ^ 64 / 10
  let allocated := min allocated max_time
  let allocated := max allocated 10
  let max_time := max max_time 10
  (allocated, max_time, in_crisis)

/-- `TimeManager::new(config, color, ..)` without the wall-clock
timestamp: the `(allocated_time_ms, max_time_ms, in_crisis)` triple the
constructor stores. -/
def timeManagerBudgets (config : TimeConfig) (color : Color) : Nat × Nat × Bool :=
  match config.movetime with
  | some movetime => (movetime, movetime, false)
  | none =>
    if config.infinite || config.depth.isSome then (MASK64, MASK64, false)
    else
      let our_time :=
        match color with
        | .White => config.wtime.getD 60000
        | .Black => config.btime.getD 60000
      let increment :=
        match color with
        | .White => config.winc.getD 0
        | .Black => config.binc.getD 0
      calculate_time our_time increment config.movestogo

/-- The claim's budget formula, written from its own words: estimated
remaining moves from `movestogo` (at least 1) or the 15/20/25/30/35/40
ladder at 30/60/180/300/600 seconds; `allocated = own/estimated +
0.9·increment`; the crisis override `clamp(own/30, 50, 500)`, crisis
meaning own time under 5 s, or under 1 s when `own + 20·increment` is
under 300 s; `max = own/2 + increment` with a positive increment, else
`0.3·own`; finally `allocated = min(allocated, max)` and both budgets at
least 10 ms.  All arithmetic exact and unsigned. -/
def calculateTimeSpec (own inc : Nat) (mtg : Option Nat) : Nat × Nat × Bool :=
  let estimated :=
    match mtg with
    | some m => max m 1
    | none =>
      if own < 30000 then 15
      else if own < 60000 then 20
      else if own < 180000 then 25
      else if own < 300000 then 30
      else if own < 600000 then 35
      else 40
  let allocated := own / estimated + 9 * inc / 10
  let crisis : Bool := if own + 20 * inc < 300000 then own < 1000 else own < 5000
  let allocated := if crisis then min (max (own / 30) 50) 500 else allocated
  let maxBudget := if 0 < inc then own / 2 + inc else 3 * own / 10
  (max (min allocated maxBudget) 10, max maxBudget 10, crisis)

/-- Below the no-overflow bounds, the wrapping `u64` computation agrees
with the claim's exact formula. -/
theorem calculate_time_no_overflow (tl inc : Nat) (mtg : Option Nat)
    (htl : tl ≤ 2 ^ 61) (hinc : inc ≤ 2 ^ 57) :
    calculate_time tl inc mtg = calculateTimeSpec tl inc mtg := by
  unfold calculate_time calculateTimeSpec
  have h9 : inc * 9 % 2 ^ 64 = inc * 9 := Nat.mod_eq_of_lt (by omega)
  have h20 : inc * 20 % 2 ^ 64 = inc * 20 := Nat.mod_eq_of_lt (by omega)
  have htot : (tl + inc * 20) % 2 ^ 64 = tl + inc * 20 := Nat.mod_eq_of_lt (by omega)
  have h3m : tl * 3 % 2 ^ 64 = tl * 3 := Nat.mod_eq_of_lt (by omega)
  have hhalf : (tl / 2 + inc) % 2 ^ 64 = tl / 2 + inc := by
    have := Nat.div_le_self tl 2
    exact Nat.mod_eq_of_lt (by omega)
  have hsum : ∀ est : Nat, (tl / est + inc * 9 / 10) % 2 ^ 64 =
      tl / est + inc * 9 / 10 := by
    intro est
    have hdiv := Nat.div_le_self tl est
    have hbon := Nat.div_le_self (inc * 9) 10
    exact Nat.mod_eq_of_lt (by omega)
  simp only [h9, h20, htot, h3m, hhalf, hsum, Nat.mul_comm 9, Nat.mul_comm 20,
    Nat.mul_comm 3]

/-- **C7** (counterexample).  The budgets are computed in `u64`, which
wraps: at 2 s on the clock with increment `922337203685477581` ms (a
valid `u64`, about `2^64 / 20`), `increment_ms * 20` wraps to `4`, the
total-game estimate lands at `2004 < 300000`, the crisis test uses the
1-second threshold instead of the 5-second one, and the allocated budget
is `830103483316929955` ms instead of the claimed formula's crisis
override of `66` ms. -/
theorem time_manager_budget_formula_counterexample :
    timeManagerBudgets
        (TimeConfig.mk (some 2000) none (some 922337203685477581) none none
          none none false) .White =
      (830103483316929955, 922337203685478581, false) ∧
    calculateTimeSpec 2000 922337203685477581 none =
      (66, 922337203685478581, true) ∧
    timeManagerBudgets
        (TimeConfig.mk (some 2000) none (some 922337203685477581) none none
          none none false) .White ≠
      calculateTimeSpec 2000 922337203685477581 none := by
  refine ⟨by decide, by decide, by decide⟩

/-- **C7** (amended).  For a `TimeConfig` with `movetime`, `depth` and
`infinite` all unset, whenever the side-to-move clock is at most `2^61`
ms and its increment at most `2^57` ms (so that no `u64` step wraps),
the time manager's stored budgets follow exactly the claim's formula,
applied to the side-to-move clock and increment (defaulted to 60000 ms /
0 ms when absent). -/
theorem time_manager_budget_formula (cfg : TimeConfig) (color : Color)
    (h1 : cfg.movetime = none) (h2 : cfg.depth = none) (h3 : cfg.infinite = false)
    (htl : (if color = .White then cfg.wtime.getD 60000
            else cfg.btime.getD 60000) ≤ 2 ^ 61)
    (hinc : (if color = .White then cfg.winc.getD 0
             else cfg.binc.getD 0) ≤ 2 ^ 57) :
    timeManagerBudgets cfg color =
      calculateTimeSpec
        (if color = .White then cfg.wtime.getD 60000 else cfg.btime.getD 60000)
        (if color = .White then cfg.winc.getD 0 else cfg.binc.getD 0)
        cfg.movestogo := by
  unfold timeManagerBudgets
  rw [h1, h2, h3]
  simp only [Bool.false_or, Option.isSome_none, Bool.false_eq_true, if_false]
  cases color with
  | White =>
    rw [if_pos rfl] at htl hinc
    rw [if_pos rfl, if_pos rfl]
    exact calculate_time_no_overflow _ _ _ htl hinc
  | Black =>
    rw [if_neg (by decide)] at htl hinc
    rw [if_neg (by decide), if_neg (by decide)]
    exact calculate_time_no_overflow _ _ _ htl hinc

/-- C7 witness: the formula at a concrete 60s + 1s-increment config,
which satisfies the no-overflow bounds. -/
theorem time_manager_budget_formula_witness :
    (TimeConfig.mk (some 60000) none (some 1000) none none none none false).movetime
        = none ∧
    timeManagerBudgets
        (TimeConfig.mk (some 60000) none (some 1000) none none none none false)
        .White =
      calculateTimeSpec 60000 1000 none := by
  refine ⟨rfl, ?_⟩
  have h := time_manager_budget_formula
    (TimeConfig.mk (some 60000) none (some 1000) none none none none false)
    .White rfl rfl rfl (by decide) (by decide)
  simpa using h

/-! ## transposition.rs: the table -/

/-- `transposition.rs::Bound`. -/
inductive Bound where
  | Exact
  | Lower
  | Upper
deriving DecidableEq, Repr

/-- `transposition.rs::TTEntry` (`depth: u32`, `value: i32`). -/
structure TTEntry where
  depth : Nat
  value : Int
  bound : Bound
  best : Option (Nat × Nat)
deriving DecidableEq, Repr

/-- `transposition.rs::RawEntry`: the two atomic words and the value. -/
structure RawEntry where
  key : Nat
  value : Int
  packed : Nat
deriving DecidableEq, Repr

/-- `transposition.rs::Table`: the entry array plus the `u8` age. -/
structure Table where
  entries : List RawEntry
  age : Nat
deriving DecidableEq, Repr

namespace Table

/-- `Table::new(size)`: zeroed entries, age 0. -/
def newTable (size : Nat) : Table :=
  { entries := List.replicate size ⟨0, 0, 0⟩, age := 0 }

/-- `Table::next_age`: `u8` wrapping increment. -/
def next_age (t : Table) : Table := { t with age := (t.age + 1) % 256 }

def boundCode (b : Bound) : Nat :=
  match b with
  | .Exact => 0
  | .Lower => 1
  | .Upper => 2

/-- The `packed_new` word built by `Table::store`:
`depth << 32 | age << 24 | bound << 16 | from << 8 | to`. -/
def packEntry (e : TTEntry) (age : Nat) : Nat :=
  (e.depth <<< 32) ||| (age <<< 24) ||| (boundCode e.bound <<< 16) |||
    ((match e.best with | some bst => bst.1 | none => 0xFF) <<< 8) |||
    (match e.best with | some bst => bst.2 | none => 0xFF)

/-- `Table::store(key, entry)`.  The slot index is `key % len` (a panic on
an empty table, which `Engine` rules out by `size.max(1)`; modelled with
`%`-by-zero and `getD`, guarded by a nonemptiness hypothesis in the
claim theorem). -/
def store (t : Table) (key : Nat) (e : TTEntry) : Table :=
  let idx := key % t.entries.length
  let slot := t.entries.getD idx ⟨0, 0, 0⟩
  let age := t.age
  let packed_new := packEntry e age
  if slot.key ≠ key then
    let existing_depth := (slot.packed >>> 32) % 2 ^ 32
    let existing_age := (slot.packed >>> 24) % 256
    if e.depth ≥ existing_depth ∨ (age + 256 - existing_age) % 256 > 5 then
      { t with entries := t.entries.set idx ⟨key, e.value, packed_new⟩ }
    else t
  else
    let existing_depth := (slot.packed >>> 32) % 2 ^ 32
    if e.depth ≥ existing_depth then
      { t with entries := t.entries.set idx ⟨slot.key, e.value, packed_new⟩ }
    else t

/-- `Table::get(key)`. -/
def get (t : Table) (key : Nat) : Option TTEntry :=
  let idx := key % t.entries.length
  let entry := t.entries.getD idx ⟨0, 0, 0⟩
  if entry.key = key then
    let packed := entry.packed
    let depth := (packed >>> 32) % 2 ^ 32
    let bound :=
      match (packed >>> 16) % 256 with
      | 1 => Bound.Lower
      | 2 => Bound.Upper
      | _ => Bound.Exact
    let f := (packed >>> 8) % 256
    let t' := packed % 256
    let best := if f = 0xFF then none else some (f, t')
    some { depth := depth, value := entry.value, bound := bound, best := best }
  else none

end Table

/-- C4: `Table::store` replacement policy.  With a nonempty table and a
`u8` age: writing entry `e` under `key` touches only the indexed slot;
when the slot holds a different key it is overwritten exactly when
`e.depth ≥ stored depth` or the age difference mod 256 exceeds 5; when it
holds the same key, exactly when `e.depth ≥ stored depth`; otherwise the
table is left unchanged. -/
theorem table_store_replacement (t : Table) (key : Nat) (e : TTEntry)
    (_hne : t.entries ≠ []) :
    (t.store key e).age = t.age ∧
    (t.store key e).entries =
      (let idx := key % t.entries.length
       let slot := t.entries.getD idx ⟨0, 0, 0⟩
       let storedDepth := (slot.packed >>> 32) % 2 ^ 32
       let storedAge := (slot.packed >>> 24) % 256
       if (slot.key ≠ key ∧ (e.depth ≥ storedDepth ∨ (t.age + 256 - storedAge) % 256 > 5)) ∨
          (slot.key = key ∧ e.depth ≥ storedDepth) then
         t.entries.set idx ⟨key, e.value, Table.packEntry e t.age⟩
       else t.entries) := by
  constructor
  · simp only [Table.store]
    split_ifs <;> rfl
  · simp only [Table.store]
    split_ifs <;> first
      | rfl
      | (exfalso; tauto)
      | (rename_i hkk hdd hcc
         rw [not_not.mp hkk])

/-- C4 witness: storing a deeper entry over a different key overwrites. -/
theorem table_store_replacement_witness :
    ((Table.newTable 4).store 9 ⟨3, 7, .Exact, none⟩).age = 0 ∧
    ((Table.newTable 4).store 9 ⟨3, 7, .Exact, none⟩).entries =
      (Table.newTable 4).entries.set 1 ⟨9, 7, Table.packEntry ⟨3, 7, .Exact, none⟩ 0⟩ := by
  have h := table_store_replacement (Table.newTable 4) 9 ⟨3, 7, .Exact, none⟩ (by decide)
  refine ⟨h.1, ?_⟩
  rw [h.2]
  decide

/-! ## Bit-loop helpers

The Rust sources iterate set bits with
`while bb != 0 { let sq = bb.trailing_zeros(); ...; bb &= bb - 1 }` and
count them with `count_ones`; `bitFold`, `ctz` and `countOnes` are those
primitives.  `rangeFold` is a `for r in a..b` loop. -/

/-- `u64::trailing_zeros`, fuel-structural so that the kernel can
evaluate it (64 on zero, as in Rust; the fuel 64 covers every `u64`). -/
def ctzAux : Nat → Nat → Nat
  | 0, _ => 0
  | fuel + 1, n => if n % 2 = 1 then 0 else 1 + ctzAux fuel (n / 2)

def ctz (n : Nat) : Nat := if n = 0 then 64 else ctzAux 64 n

/-- `u64::count_ones`, fuel-structural. -/
def countOnesAux : Nat → Nat → Nat
  | 0, _ => 0
  | fuel + 1, n => if n = 0 then 0 else n % 2 + countOnesAux fuel (n / 2)

def countOnes (n : Nat) : Nat := countOnesAux 64 n

/-- The `while bb != 0` set-bit loop: visits `trailing_zeros` of each
remaining value, clearing the lowest bit each round.  Fuel-structural; a
`u64` has at most 64 set bits. -/
def bitFoldAux {α : Type} (f : Nat → α → α) : Nat → Nat → α → α
  | 0, _, acc => acc
  | fuel + 1, bb, acc =>
    if bb = 0 then acc
    else bitFoldAux f fuel (bb &&& (bb - 1)) (f (ctz bb) acc)

def bitFold {α : Type} (f : Nat → α → α) (bb : Nat) (acc : α) : α :=
  bitFoldAux f 64 bb acc

/-- `for i in start..stop { .. }`. -/
def rangeFold {α : Type} (start stop : Nat) (f : Nat → α → α) (a : α) : α :=
  (List.range' start (stop - start)).foldl (fun acc r => f r acc) a

/-! ## eval.rs: the evaluator -/

def PAWN_PST_MG : List Int := [
  0, 0, 0, 0, 0, 0, 0, 0,
  -10, 5, -5, -10, -10, -5, 5, -10,
  -10, 0, 5, 10, 10, 5, 0, -10,
  -5, 0, 10, 25, 25, 10, 0, -5,
  5, 5, 15, 30, 30, 15, 5, 5,
  15, 15, 25, 35, 35, 25, 15, 15,
  50, 50, 50, 50, 50, 50, 50, 50,
  0, 0, 0, 0, 0, 0, 0, 0]

def PAWN_PST_EG : List Int := [
  0, 0, 0, 0, 0, 0, 0, 0,
  5, 5, 5, 5, 5, 5, 5, 5,
  10, 10, 10, 10, 10, 10, 10, 10,
  15, 15, 15, 20, 20, 15, 15, 15,
  25, 25, 25, 30, 30, 25, 25, 25,
  40, 40, 40, 45, 45, 40, 40, 40,
  70, 70, 70, 70, 70, 70, 70, 70,
  0, 0, 0, 0, 0, 0, 0, 0]

def KNIGHT_PST_MG : List Int := [
  -50, -40, -30, -30, -30, -30, -40, -50,
  -40, -20, 0, 5, 5, 0, -20, -40,
  -30, 5, 15, 20, 20, 15, 5, -30,
  -30, 5, 20, 25, 25, 20, 5, -30,
  -30, 5, 20, 25, 25, 20, 5, -30,
  -30, 5, 15, 20, 20, 15, 5, -30,
  -40, -20, 0, 5, 5, 0, -20, -40,
  -50, -40, -30, -30, -30, -30, -40, -50]

def KNIGHT_PST_EG : List Int := [
  -50, -40, -30, -30, -30, -30, -40, -50,
  -40, -20, 0, 0, 0, 0, -20, -40,
  -30, 0, 15, 15, 15, 15, 0, -30,
  -30, 5, 15, 20, 20, 15, 5, -30,
  -30, 5, 15, 20, 20, 15, 5, -30,
  -30, 0, 15, 15, 15, 15, 0, -30,
  -40, -20, 0, 0, 0, 0, -20, -40,
  -50, -40, -30, -30, -30, -30, -40, -50]

def BISHOP_PST_MG : List Int := [
  -20, -10, -10, -10, -10, -10, -10, -20,
  -10, 5, 0, 0, 0, 0, 5, -10,
  -10, 10, 10, 10, 10, 10, 10, -10,
  -10, 0, 15, 15, 15, 15, 0, -10,
  -10, 5, 10, 15, 15, 10, 5, -10,
  -10, 0, 10, 15, 15, 10, 0, -10,
  -10, 5, 0, 0, 0, 0, 5, -10,
  -20, -10, -10, -10, -10, -10, -10, -20]

def BISHOP_PST_EG : List Int := [
  -20, -10, -10, -10, -10, -10, -10, -20,
  -10, 0, 0, 0, 0, 0, 0, -10,
  -10, 0, 5, 10, 10, 5, 0, -10,
  -10, 5, 10, 15, 15, 10, 5, -10,
  -10, 5, 10, 15, 15, 10, 5, -10,
  -10, 0, 5, 10, 10, 5, 0, -10,
  -10, 0, 0, 0, 0, 0, 0, -10,
  -20, -10, -10, -10, -10, -10, -10, -20]

def ROOK_PST_MG : List Int := [
  0, 0, 5, 10, 10, 5, 0, 0,
  -5, 0, 0, 0, 0, 0, 0, -5,
  -5, 0, 0, 0, 0, 0, 0, -5,
  -5, 0, 0, 0, 0, 0, 0, -5,
  -5, 0, 0, 0, 0, 0, 0, -5,
  -5, 0, 0, 0, 0, 0, 0, -5,
  10, 15, 15, 15, 15, 15, 15, 10,
  0, 0, 0, 5, 5, 0, 0, 0]

def ROOK_PST_EG : List Int := [
  0, 0, 0, 0, 0, 0, 0, 0,
  0, 0, 0, 0, 0, 0, 0, 0,
  0, 0, 0, 0, 0, 0, 0, 0,
  0, 0, 0, 0, 0, 0, 0, 0,
  0, 0, 0, 0, 0, 0, 0, 0,
  0, 0, 0, 0, 0, 0, 0, 0,
  15, 15, 15, 15, 15, 15, 15, 15,
  0, 0, 0, 0, 0, 0, 0, 0]

def QUEEN_PST_MG : List Int := [
  -20, -10, -10, -5, -5, -10, -10, -20,
  -10, 0, 5, 0, 0, 0, 0, -10,
  -10, 5, 5, 5, 5, 5, 0, -10,
  0, 0, 5, 5, 5, 5, 0, -5,
  -5, 0, 5, 5, 5, 5, 0, -5,
  -10, 0, 5, 5, 5, 5, 0, -10,
  -10, 0, 0, 0, 0, 0, 0, -10,
  -20, -10, -10, -5, -5, -10, -10, -20]

def QUEEN_PST_EG : List Int := [
  -20, -10, -10, -5, -5, -10, -10, -20,
  -10, 0, 0, 0, 0, 0, 0, -10,
  -10, 0, 5, 5, 5, 5, 0, -10,
  -5, 0, 5, 10, 10, 5, 0, -5,
  -5, 0, 5, 10, 10, 5, 0, -5,
  -10, 0, 5, 5, 5, 5, 0, -10,
  -10, 0, 0, 0, 0, 0, 0, -10,
  -20, -10, -10, -5, -5, -10, -10, -20]

def KING_PST_MG : List Int := [
  20, 30, 10, 0, 0, 10, 30, 20,
  20, 20, 0, 0, 0, 0, 20, 20,
  -10, -20, -20, -20, -20, -20, -20, -10,
  -20, -30, -30, -40, -40, -30, -30, -20,
  -30, -40, -40, -50, -50, -40, -40, -30,
  -30, -40, -40, -50, -50, -40, -40, -30,
  -30, -40, -40, -50, -50, -40, -40, -30,
  -30, -40, -40, -50, -50, -40, -40, -30]

def KING_PST_EG : List Int := [
  -50, -30, -30, -30, -30, -30, -30, -50,
  -30, -20, -10, -10, -10, -10, -20, -30,
  -30, -10, 20, 30, 30, 20, -10, -30,
  -30, -10, 30, 40, 40, 30, -10, -30,
  -30, -10, 30, 40, 40, 30, -10, -30,
  -30, -10, 20, 30, 30, 20, -10, -30,
  -30, -20, -10, -10, -10, -10, -20, -30,
  -50, -30, -30, -30, -30, -30, -30, -50]

/-- `eval.rs::PST_MG[pt]`. -/
def PST_MG (pt : Nat) : List Int :=
  match pt with
  | 0 => PAWN_PST_MG
  | 1 => KNIGHT_PST_MG
  | 2 => BISHOP_PST_MG
  | 3 => ROOK_PST_MG
  | 4 => QUEEN_PST_MG
  | _ => KING_PST_MG

/-- `eval.rs::PST_EG[pt]`. -/
def PST_EG (pt : Nat) : List Int :=
  match pt with
  | 0 => PAWN_PST_EG
  | 1 => KNIGHT_PST_EG
  | 2 => BISHOP_PST_EG
  | 3 => ROOK_PST_EG
  | 4 => QUEEN_PST_EG
  | _ => KING_PST_EG

def MATERIAL_MG : List Int := [100, 320, 330, 500, 900, 0]
def MATERIAL_EG : List Int := [120, 300, 320, 550, 1000, 0]

def PASSED_PAWN_BONUS_MG : List Int := [0, 5, 10, 20, 40, 70, 120, 0]
def PASSED_PAWN_BONUS_EG : List Int := [0, 10, 20, 40, 70, 120, 200, 0]

def CONNECTED_PASSED_BONUS : Score := Score.new 10 20
def DOUBLED_PAWN_PENALTY : Score := Score.new 10 15
def ISOLATED_PAWN_PENALTY : Score := Score.new 15 10
def BACKWARD_PAWN_PENALTY : Score := Score.new 10 8
def PAWN_SHELTER_PENALTY : Score := Score.new 20 5
def KING_OPEN_FILE_PENALTY : Score := Score.new 30 0
def KING_SEMI_OPEN_FILE_PENALTY : Score := Score.new 15 0
def BISHOP_PAIR_BONUS : Score := Score.new 30 50
def ROOK_OPEN_FILE_BONUS : Score := Score.new 20 10
def ROOK_SEMI_OPEN_FILE_BONUS : Score := Score.new 10 5
def ROOK_ON_7TH_BONUS : Score := Score.new 20 30
def KNIGHT_OUTPOST_BONUS : Score := Score.new 25 15

def TEMPO_BONUS : Int := 15

/-- The a-file mask `0x0101010101010101`. -/
def FILE_A : Nat := 0x0101010101010101

/-- The `match file { 0 | 7 | _ }` adjacent-files mask, written inline at
each of its three uses in the source. -/
def adjacent_files_mask (file : Nat) : Nat :=
  match file with
  | 0 => 0x0202020202020202
  | 7 => 0x4040404040404040
  | _ => (FILE_A <<< (file - 1)) ||| (FILE_A <<< (file + 1))

namespace Evaluator

/-- `Evaluator::calculate_phase`. -/
def calculate_phase (b : Board) : Int :=
  let phase := (List.range 2).foldl (fun phase color =>
    phase + (countOnes (b.bitboards color 1) : Int) * 1
      + (countOnes (b.bitboards color 2) : Int) * 1
      + (countOnes (b.bitboards color 3) : Int) * 2
      + (countOnes (b.bitboards color 4) : Int) * 4) 0
  min phase TOTAL_PHASE

/-- `Evaluator::eval_material_and_pst`. -/
def eval_material_and_pst (b : Board) : Score :=
  (List.range 6).foldl (fun score pt =>
    let score := bitFold (fun sq s => s.add (Score.new
      (MATERIAL_MG.getD pt 0 + (PST_MG pt).getD sq 0)
      (MATERIAL_EG.getD pt 0 + (PST_EG pt).getD sq 0))) (b.bitboards 0 pt) score
    bitFold (fun sq s =>
      let flipped := sq ^^^ 56
      s.sub (Score.new
        (MATERIAL_MG.getD pt 0 + (PST_MG pt).getD flipped 0)
        (MATERIAL_EG.getD pt 0 + (PST_EG pt).getD flipped 0))) (b.bitboards 1 pt) score)
    Score.ZERO

/-- `Evaluator::is_passed_pawn`. -/
def is_passed_pawn (sq : Nat) (color : Color) (enemy_pawns : Nat) : Bool :=
  let file := sq % 8
  let rank := sq / 8
  let mask :=
    match color with
    | .White =>
      rangeFold (rank + 1) 8 (fun r m =>
        rangeFold (file - 1) (min (file + 1) 7 + 1) (fun f m =>
          m ||| (1 <<< (r * 8 + f))) m) 0
    | .Black =>
      rangeFold 0 rank (fun r m =>
        rangeFold (file - 1) (min (file + 1) 7 + 1) (fun f m =>
          m ||| (1 <<< (r * 8 + f))) m) 0
  enemy_pawns &&& mask = 0

/-- `Evaluator::has_adjacent_pawn`. -/
def has_adjacent_pawn (sq : Nat) (_color : Color) (own_pawns : Nat) : Bool :=
  let file := sq % 8
  let rank := sq / 8
  (List.range' (file - 1) (min (file + 1) 7 + 1 - (file - 1))).any fun f =>
    f != file &&
      (List.range' (rank - 1) (min (rank + 1) 7 + 1 - (rank - 1))).any fun r =>
        own_pawns &&& (1 <<< (r * 8 + f)) != 0

/-- `Evaluator::is_backward_pawn`. -/
def is_backward_pawn (sq : Nat) (color : Color) (own_pawns enemy_pawns : Nat) : Bool :=
  let file := sq % 8
  let rank := sq / 8
  let support_mask :=
    match color with
    | .White =>
      rangeFold 0 (rank + 1) (fun r m =>
        rangeFold (file - 1) (min (file + 1) 7 + 1) (fun f m =>
          if f ≠ file then m ||| (1 <<< (r * 8 + f)) else m) m) 0
    | .Black =>
      rangeFold rank 8 (fun r m =>
        rangeFold (file - 1) (min (file + 1) 7 + 1) (fun f m =>
          if f ≠ file then m ||| (1 <<< (r * 8 + f)) else m) m) 0
  if own_pawns &&& support_mask = 0 then
    let advance_ok : Bool :=
      match color with
      | .White => decide (rank < 7)
      | .Black => decide (0 < rank)
    if advance_ok then
      let enemy_attacks :=
        match color with
        | .White =>
          (if 0 < file ∧ rank < 6 then 1 <<< ((rank + 2) * 8 + file - 1) else 0) |||
          (if file < 7 ∧ rank < 6 then 1 <<< ((rank + 2) * 8 + file + 1) else 0)
        | .Black =>
          (if 0 < file ∧ 1 < rank then 1 <<< ((rank - 2) * 8 + file - 1) else 0) |||
          (if file < 7 ∧ 1 < rank then 1 <<< ((rank - 2) * 8 + file + 1) else 0)
      enemy_pawns &&& enemy_attacks ≠ 0
    else false
  else false

/-- `Evaluator::eval_pawns_for_color`. -/
def eval_pawns_for_color (color : Color) (own_pawns enemy_pawns : Nat) : Score :=
  bitFold (fun sq score =>
    let file := sq % 8
    let rank := if color = .White then sq / 8 else 7 - sq / 8
    let file_mask := FILE_A <<< file
    let pawns_on_file := countOnes (own_pawns &&& file_mask)
    let score := if 1 < pawns_on_file then score.sub DOUBLED_PAWN_PENALTY else score
    let score :=
      if own_pawns &&& adjacent_files_mask file = 0 then
        score.sub ISOLATED_PAWN_PENALTY
      else score
    let score :=
      if is_passed_pawn sq color enemy_pawns then
        let score := score.add (Score.new (PASSED_PAWN_BONUS_MG.getD rank 0)
          (PASSED_PAWN_BONUS_EG.getD rank 0))
        if has_adjacent_pawn sq color own_pawns then
          score.add CONNECTED_PASSED_BONUS
        else score
      else score
    if is_backward_pawn sq color own_pawns enemy_pawns then
      score.sub BACKWARD_PAWN_PENALTY
    else score) own_pawns Score.ZERO

/-- `Evaluator::eval_pawn_structure`. -/
def eval_pawn_structure (b : Board) : Score :=
  let white_pawns := b.bitboards 0 0
  let black_pawns := b.bitboards 1 0
  let score := Score.ZERO.add (eval_pawns_for_color .White white_pawns black_pawns)
  score.sub (eval_pawns_for_color .Black black_pawns white_pawns)

/-- `Evaluator::eval_rooks`. -/
def eval_rooks (b : Board) (color : Color) : Score :=
  let cidx := color_idx color
  let own_pawns := b.bitboards cidx 0
  let enemy_pawns := b.bitboards (1 - cidx) 0
  let rooks := b.bitboards cidx 3
  bitFold (fun sq score =>
    let file := sq % 8
    let rank := sq / 8
    let file_mask := FILE_A <<< file
    let score :=
      if own_pawns &&& file_mask = 0 ∧ enemy_pawns &&& file_mask = 0 then
        score.add ROOK_OPEN_FILE_BONUS
      else if own_pawns &&& file_mask = 0 then
        score.add ROOK_SEMI_OPEN_FILE_BONUS
      else score
    let seventh := if color = .White then 6 else 1
    if rank = seventh then score.add ROOK_ON_7TH_BONUS else score) rooks Score.ZERO

/-- `Evaluator::eval_knight_outposts`. -/
def eval_knight_outposts (b : Board) (color : Color) : Score :=
  let cidx := color_idx color
  let own_pawns := b.bitboards cidx 0
  let enemy_pawns := b.bitboards (1 - cidx) 0
  let knights := b.bitboards cidx 1
  bitFold (fun sq score =>
    let file := sq % 8
    let rank := sq / 8
    let in_enemy_territory : Bool :=
      match color with
      | .White => decide (4 ≤ rank)
      | .Black => decide (rank ≤ 3)
    if in_enemy_territory then
      let supported : Bool :=
        match color with
        | .White =>
          let support_mask :=
            (if 0 < file ∧ 0 < rank then 1 <<< ((rank - 1) * 8 + file - 1) else 0) |||
            (if file < 7 ∧ 0 < rank then 1 <<< ((rank - 1) * 8 + file + 1) else 0)
          decide (own_pawns &&& support_mask ≠ 0)
        | .Black =>
          let support_mask :=
            (if 0 < file ∧ rank < 7 then 1 <<< ((rank + 1) * 8 + file - 1) else 0) |||
            (if file < 7 ∧ rank < 7 then 1 <<< ((rank + 1) * 8 + file + 1) else 0)
          decide (own_pawns &&& support_mask ≠ 0)
      let adjacent_files := adjacent_files_mask file
      let cant_be_attacked : Bool :=
        match color with
        | .White =>
          decide (enemy_pawns &&& (rangeFold (rank + 1) 8 (fun r m =>
            m ||| (adjacent_files &&& (0xFF <<< (r * 8)))) 0) = 0)
        | .Black =>
          decide (enemy_pawns &&& (rangeFold 0 rank (fun r m =>
            m ||| (adjacent_files &&& (0xFF <<< (r * 8)))) 0) = 0)
      if supported && cant_be_attacked then score.add KNIGHT_OUTPOST_BONUS else score
    else score) knights Score.ZERO

/-- `Evaluator::eval_pieces`. -/
def eval_pieces (b : Board) : Score :=
  let score := Score.ZERO
  let score := if 2 ≤ countOnes (b.bitboards 0 2) then score.add BISHOP_PAIR_BONUS else score
  let score := if 2 ≤ countOnes (b.bitboards 1 2) then score.sub BISHOP_PAIR_BONUS else score
  let score := score.add (eval_rooks b .White)
  let score := score.sub (eval_rooks b .Black)
  let score := score.add (eval_knight_outposts b .White)
  score.sub (eval_knight_outposts b .Black)

/-- `Evaluator::eval_king_safety_for_color`. -/
def eval_king_safety_for_color (b : Board) (phase : Int) (color : Color) : Score :=
  let cidx := color_idx color
  let king_bb := b.bitboards cidx 5
  if king_bb = 0 then Score.ZERO
  else
    let king_sq := ctz king_bb
    let king_file := king_sq % 8
    let king_rank := king_sq / 8
    let own_pawns := b.bitboards cidx 0
    let enemy_pawns := b.bitboards (1 - cidx) 0
    if TOTAL_PHASE / 2 < phase then
      let shelter_rank := if color = .White then king_rank + 1 else king_rank - 1
      let score := Score.ZERO
      let score :=
        if shelter_rank < 8 then
          rangeFold (king_file - 1) (min (king_file + 1) 7 + 1) (fun f s =>
            if own_pawns &&& (1 <<< (shelter_rank * 8 + f)) = 0 then
              s.sub PAWN_SHELTER_PENALTY
            else s) score
        else score
      let file_mask := FILE_A <<< king_file
      if own_pawns &&& file_mask = 0 ∧ enemy_pawns &&& file_mask = 0 then
        score.sub KING_OPEN_FILE_PENALTY
      else if own_pawns &&& file_mask = 0 then
        score.sub KING_SEMI_OPEN_FILE_PENALTY
      else score
    else Score.ZERO

/-- `Evaluator::eval_king_safety`. -/
def eval_king_safety (b : Board) (phase : Int) : Score :=
  let score := Score.ZERO.add (eval_king_safety_for_color b phase .White)
  score.sub (eval_king_safety_for_color b phase .Black)

/-- `Evaluator::evaluate(color)`: the shared tapered score, then the
tempo-adjusted value from `color`'s perspective. -/
def evaluate (b : Board) (color : Color) : Int :=
  let phase := calculate_phase b
  let score := Score.ZERO
  let score := score.add (eval_material_and_pst b)
  let score := score.add (eval_pawn_structure b)
  let score := score.add (eval_pieces b)
  let score := score.add (eval_king_safety b phase)
  let tapered := score.taper phase
  if color = .White then tapered + TEMPO_BONUS else -tapered + TEMPO_BONUS

end Evaluator

/-- `eval.rs::evaluate(board, color)`. -/
def evaluate (b : Board) (color : Color) : Int := Evaluator.evaluate b color

/-- C10: the evaluation is zero-sum up to twice the tempo bonus: for
*every* board (no reachability assumption), the two colors see exact
negations of one shared tapered score, each offset by `TEMPO_BONUS = 15`,
so the sum is exactly 30. -/
theorem evaluate_zero_sum (b : Board) :
    evaluate b .White + evaluate b .Black = 30 := by
  unfold evaluate Evaluator.evaluate TEMPO_BONUS
  simp
  omega

/-! ## board.rs: pseudo-legal moves, attack queries, legality -/

/-- `Board::inside(x, y)` (isize coordinates). -/
def inside (x y : Int) : Bool := 0 ≤ x && x < 8 && 0 ≤ y && y < 8

/-- `if let Some(s) = index_to_algebraic(..) { moves.push(s) }`. -/
def pushIdx (acc : List String) (x y : Nat) : List String :=
  match Board.index_to_algebraic x y with
  | some s => acc ++ [s]
  | none => acc

def knightDirs : List (Int × Int) :=
  [(-2, -1), (-2, 1), (-1, -2), (-1, 2), (1, -2), (1, 2), (2, -1), (2, 1)]

def kingDirs : List (Int × Int) :=
  [(-1, -1), (-1, 0), (-1, 1), (0, -1), (0, 1), (1, -1), (1, 0), (1, 1)]

def bishopDirs : List (Int × Int) := [(-1, -1), (-1, 1), (1, -1), (1, 1)]

def rookDirs : List (Int × Int) := [(0, 1), (0, -1), (1, 0), (-1, 0)]

namespace Board

/-- The body of `Board::add_ray`: walk from `(nx, ny)` in direction
`(dx, dy)` until leaving the board or hitting a piece.  The fuel `8`
bounds the at most 7 steps any ray can take inside the board. -/
def add_ray_aux (b : Board) (color : Color) (dx dy : Int) :
    Nat → Int → Int → List String → List String
  | 0, _, _, acc => acc
  | fuel + 1, nx, ny, acc =>
    if inside nx ny then
      match b.get_index nx.toNat ny.toNat with
      | none => b.add_ray_aux color dx dy fuel (nx + dx) (ny + dy) (pushIdx acc nx.toNat ny.toNat)
      | some p => if p.color ≠ color then pushIdx acc nx.toNat ny.toNat else acc
    else acc

/-- `Board::add_ray`. -/
def add_ray (b : Board) (x y : Nat) (dx dy : Int) (color : Color)
    (acc : List String) : List String :=
  b.add_ray_aux color dx dy 8 ((x : Int) + dx) ((y : Int) + dy) acc

/-- One knight/king jump target of `pseudo_legal_moves`. -/
def jump_target (b : Board) (color : Color) (x y : Nat) (d : Int × Int)
    (acc : List String) : List String :=
  let nx := (x : Int) + d.1
  let ny := (y : Int) + d.2
  if inside nx ny then
    match b.get_index nx.toNat ny.toNat with
    | some tgt => if tgt.color ≠ color then pushIdx acc nx.toNat ny.toNat else acc
    | none => pushIdx acc nx.toNat ny.toNat
  else acc

/-- `Board::pseudo_legal_moves`. -/
def pseudo_legal_moves (b : Board) (pos : String) : List String :=
  match Board.algebraic_to_index pos with
  | none => []
  | some (x, y) =>
    match b.get_index x y with
    | none => []
    | some piece =>
      let color := piece.color
      match piece.piece_type with
      | .Knight => knightDirs.foldl (fun acc d => b.jump_target color x y d acc) []
      | .Bishop => bishopDirs.foldl (fun acc d => b.add_ray x y d.1 d.2 color acc) []
      | .Rook => rookDirs.foldl (fun acc d => b.add_ray x y d.1 d.2 color acc) []
      | .Queen =>
        (bishopDirs ++ rookDirs).foldl (fun acc d => b.add_ray x y d.1 d.2 color acc) []
      | .King =>
        let moves := kingDirs.foldl (fun acc d => b.jump_target color x y d acc) []
        let rank := if color = .White then 0 else 7
        let cidx := color_idx color
        let moves :=
          if b.castling cidx 0 ∧ (b.get_index 5 rank).isNone ∧
              (b.get_index 6 rank).isNone then
            pushIdx moves 6 rank
          else moves
        if b.castling cidx 1 ∧ (b.get_index 1 rank).isNone ∧
            (b.get_index 2 rank).isNone ∧ (b.get_index 3 rank).isNone then
          pushIdx moves 2 rank
        else moves
      | .Pawn =>
        let dir_y : Int := if color = .White then 1 else -1
        let start_rank : Nat := if color = .White then 1 else 6
        let ny := (y : Int) + dir_y
        let moves :=
          if inside (x : Int) ny ∧ (b.get_index x ny.toNat).isNone then
            let moves := pushIdx [] x ny.toNat
            if y = start_rank then
              let ny2 := (y : Int) + 2 * dir_y
              if inside (x : Int) ny2 ∧ (b.get_index x ny2.toNat).isNone then
                pushIdx moves x ny2.toNat
              else moves
            else moves
          else []
        ([-1, 1] : List Int).foldl (fun moves dx =>
          let nx := (x : Int) + dx
          if inside nx ny then
            match b.get_index nx.toNat ny.toNat with
            | some tgt =>
              if tgt.color ≠ color then pushIdx moves nx.toNat ny.toNat else moves
            | none =>
              match b.en_passant with
              | some (epx, epy) =>
                if (epx : Int) = nx ∧ (epy : Int) = ny then
                  pushIdx moves nx.toNat ny.toNat
                else moves
              | none => moves
          else moves) moves

/-- `Board::square_attacked`. -/
def square_attacked (b : Board) (x y : Nat) (by_color : Color) : Bool :=
  (List.range 8).any fun yy => (List.range 8).any fun xx =>
    match b.get_index xx yy with
    | some p =>
      p.color == by_color &&
        (match Board.index_to_algebraic xx yy with
         | some pos =>
           (b.pseudo_legal_moves pos).any fun m =>
             match Board.algebraic_to_index m with
             | some (tx, ty) => tx == x && ty == y
             | none => false
         | none => false)
    | none => false

/-- `Board::find_king`. -/
def find_king (b : Board) (color : Color) : Option (Nat × Nat) :=
  (List.range 8).foldl (fun acc y =>
    match acc with
    | some r => some r
    | none =>
      (List.range 8).foldl (fun acc2 x =>
        match acc2 with
        | some r => some r
        | none =>
          match b.get_index x y with
          | some p =>
            if p.piece_type == PieceType.King && p.color == color then
              some (x, y)
            else none
          | none => none) none) none

/-- `Board::in_check` (the slow, pseudo-legal-move based query). -/
def in_check (b : Board) (color : Color) : Bool :=
  match b.find_king color with
  | none => false
  | some k =>
    let opp := if color = .White then Color.Black else Color.White
    (List.range 8).any fun y => (List.range 8).any fun x =>
      match b.get_index x y with
      | some p =>
        p.color == opp &&
          (match Board.index_to_algebraic x y with
           | some pos =>
             (b.pseudo_legal_moves pos).any fun m =>
               match Board.algebraic_to_index m with
               | some (tx, ty) => tx == k.1 && ty == k.2
               | none => false
           | none => false)
      | none => false

/-- The `while x != ex` crossed-squares loop of `Board::is_legal`;
fuel-bounded (the castle trigger guarantees distance 2, one square). -/
def crossed_attacked (b : Board) (sy : Nat) (opp : Color) (step : Int) :
    Nat → Int → Int → Bool
  | 0, _, _ => false
  | fuel + 1, xx, ex =>
    if xx = ex then false
    else if b.square_attacked xx.toNat sy opp then true
    else b.crossed_attacked sy opp step fuel (xx + step) ex

/-- `Board::is_legal` (paired with the mutated board: the castle trial
inside it permanently alters squares that `unmake_move` does not
restore when the rook slide overwrote an occupied square). -/
def is_legal (b : Board) (start endp : String) (color : Color) : Bool × Board :=
  match Board.algebraic_to_index start, Board.algebraic_to_index endp with
  | some (sx, sy), some (ex, ey) =>
    match b.get_index sx sy with
    | none => (false, b)
    | some piece =>
      if piece.color ≠ color then (false, b)
      else if (match b.get_index ex ey with
          | some dest => dest.color == color
          | none => false) then (false, b)
      else
        let is_castle := piece.piece_type == PieceType.King &&
          ((sx : Int) - ex).natAbs == 2
        let opp := if color = .White then Color.Black else Color.White
        let step : Int := if ex > sx then 1 else -1
        if is_castle &&
            (b.in_check color ||
              b.crossed_attacked sy opp step 8 ((sx : Int) + step) (ex : Int)) then
          (false, b)
        else
          match b.make_move_state start endp with
          | (some state, b1) =>
            let check := b1.in_check color
            let b2 := b1.unmake_move state
            (!check, b2)
          | (none, b1) => (false, b1)
  | _, _ => (false, b)

end Board

/-! ## movegen.rs: attack tables, ray generation, legal move generation -/

/-- `movegen.rs::KNIGHT_TABLE[sq]` (computed entry-wise from the dirs). -/
def KNIGHT_TABLE (sq : Nat) : Nat :=
  let x := sq % 8
  let y := sq / 8
  knightDirs.foldl (fun bb d =>
    let nx := (x : Int) + d.1
    let ny := (y : Int) + d.2
    if inside nx ny then bb ||| (1 <<< (ny.toNat * 8 + nx.toNat)) else bb) 0

/-- `movegen.rs::KING_TABLE[sq]`. -/
def KING_TABLE (sq : Nat) : Nat :=
  let x := sq % 8
  let y := sq / 8
  kingDirs.foldl (fun bb d =>
    let nx := (x : Int) + d.1
    let ny := (y : Int) + d.2
    if inside nx ny then bb ||| (1 <<< (ny.toNat * 8 + nx.toNat)) else bb) 0

/-- One directional ray of `movegen.rs::rook_attacks` / `bishop_attacks`
and of `board.rs::straight_attacks` / `diagonal_attacks`: accumulate
squares until leaving the board or just past the first occupied square.
Fuel 8 covers the at most 7 in-board steps (the
`if nx == 0 break` guards of the usize loops are subsumed by the `Int`
coordinates). -/
def ray_attacks_aux (occ : Nat) (dx dy : Int) :
    Nat → Int → Int → Nat → Nat
  | 0, _, _, acc => acc
  | fuel + 1, nx, ny, acc =>
    if inside nx ny then
      let idx := ny.toNat * 8 + nx.toNat
      let acc := acc ||| (1 <<< idx)
      if occ &&& (1 <<< idx) ≠ 0 then acc
      else ray_attacks_aux occ dx dy fuel (nx + dx) (ny + dy) acc
    else acc

/-- `movegen.rs::rook_attacks`. -/
def rook_attacks (sq : Nat) (occ : Nat) : Nat :=
  let x := (sq % 8 : Nat)
  let y := (sq / 8 : Nat)
  rookDirs.foldl (fun acc d =>
    ray_attacks_aux occ d.1 d.2 8 ((x : Int) + d.1) ((y : Int) + d.2) acc) 0

/-- `movegen.rs::bishop_attacks`. -/
def bishop_attacks (sq : Nat) (occ : Nat) : Nat :=
  let x := (sq % 8 : Nat)
  let y := (sq / 8 : Nat)
  bishopDirs.foldl (fun acc d =>
    ray_attacks_aux occ d.1 d.2 8 ((x : Int) + d.1) ((y : Int) + d.2) acc) 0

/-- The h-file mask `0x8080808080808080`. -/
def FILE_H : Nat := 0x8080808080808080

namespace Board

/-- `Board::all_pieces`. -/
def all_pieces (b : Board) (color : Color) : Nat :=
  (List.range 6).foldl (fun a p => a ||| b.bitboards (color_idx color) p) 0

/-- `Board::occupied`. -/
def occupied (b : Board) : Nat := b.all_pieces .White ||| b.all_pieces .Black

/-- `Board::diagonal_attacks`. -/
def diagonal_attacks (_b : Board) (sq : Nat) (occ : Nat) : Nat :=
  bishopDirs.foldl (fun acc d =>
    ray_attacks_aux occ d.1 d.2 8 ((sq % 8 : Nat) + d.1) ((sq / 8 : Nat) + d.2) acc) 0

/-- `Board::straight_attacks`. -/
def straight_attacks (_b : Board) (sq : Nat) (occ : Nat) : Nat :=
  rookDirs.foldl (fun acc d =>
    ray_attacks_aux occ d.1 d.2 8 ((sq % 8 : Nat) + d.1) ((sq / 8 : Nat) + d.2) acc) 0

/-- `Board::is_square_attacked_by`: bitboard attack query.  The `u64`
pawn shifts are wrapped with `&&& MASK64`. -/
def is_square_attacked_by (b : Board) (sq : Nat) (by_color : Color) : Bool :=
  let cidx := color_idx by_color
  let sq_bb := 1 <<< sq
  let occ := b.occupied
  let pawns := b.bitboards cidx 0
  let pawn_attacks :=
    if by_color = .White then
      (((pawns &&& (MASK64 ^^^ FILE_A)) <<< 7) &&& MASK64) |||
        (((pawns &&& (MASK64 ^^^ FILE_H)) <<< 9) &&& MASK64)
    else
      ((pawns &&& (MASK64 ^^^ FILE_H)) >>> 7) |||
        ((pawns &&& (MASK64 ^^^ FILE_A)) >>> 9)
  if pawn_attacks &&& sq_bb ≠ 0 then true
  else if KNIGHT_TABLE sq &&& b.bitboards cidx 1 ≠ 0 then true
  else if KING_TABLE sq &&& b.bitboards cidx 5 ≠ 0 then true
  else
    let bishops_queens := b.bitboards cidx 2 ||| b.bitboards cidx 4
    let rooks_queens := b.bitboards cidx 3 ||| b.bitboards cidx 4
    if b.diagonal_attacks sq occ &&& bishops_queens ≠ 0 then true
    else if b.straight_attacks sq occ &&& rooks_queens ≠ 0 then true
    else false

/-- `Board::in_check_fast`. -/
def in_check_fast (b : Board) (color : Color) : Bool :=
  let king_bb := b.bitboards (color_idx color) 5
  if king_bb = 0 then false
  else
    let king_sq := ctz king_bb
    let opp := if color = .White then Color.Black else Color.White
    b.is_square_attacked_by king_sq opp

/-- `Board::piece_type_idx_at`. -/
def piece_type_idx_at (b : Board) (sq : Nat) : Nat :=
  match b.get_index (sq % 8) (sq / 8) with
  | some p => piece_index p.piece_type
  | none => 6

/-- `Board::piece_count_total`. -/
def piece_count_total (b : Board) (color : Color) : Nat :=
  (List.range 6).foldl (fun a p => a + countOnes (b.bitboards (color_idx color) p)) 0

end Board

/-- `movegen.rs::pawn_moves`. -/
def pawn_moves (sq : Nat) (color : Color) (occ opp_occ : Nat)
    (en_passant : Option (Nat × Nat)) : Nat :=
  let x := sq % 8
  let y := sq / 8
  match color with
  | .White =>
    let moves : Nat := 0
    let moves :=
      if y < 7 ∧ occ &&& (1 <<< ((y + 1) * 8 + x)) = 0 then
        let moves := moves ||| (1 <<< ((y + 1) * 8 + x))
        if y = 1 ∧ occ &&& (1 <<< ((y + 2) * 8 + x)) = 0 then
          moves ||| (1 <<< ((y + 2) * 8 + x))
        else moves
      else moves
    let moves :=
      if 0 < x ∧ y < 7 ∧ opp_occ &&& (1 <<< ((y + 1) * 8 + x - 1)) ≠ 0 then
        moves ||| (1 <<< ((y + 1) * 8 + x - 1))
      else moves
    let moves :=
      if x < 7 ∧ y < 7 ∧ opp_occ &&& (1 <<< ((y + 1) * 8 + x + 1)) ≠ 0 then
        moves ||| (1 <<< ((y + 1) * 8 + x + 1))
      else moves
    match en_passant with
    | some (ex, ey) =>
      if ey = y + 1 ∧ (ex = x + 1 ∨ ex + 1 = x) then moves ||| (1 <<< (ey * 8 + ex))
      else moves
    | none => moves
  | .Black =>
    let moves : Nat := 0
    let moves :=
      if 0 < y ∧ occ &&& (1 <<< ((y - 1) * 8 + x)) = 0 then
        let moves := moves ||| (1 <<< ((y - 1) * 8 + x))
        if y = 6 ∧ occ &&& (1 <<< ((y - 2) * 8 + x)) = 0 then
          moves ||| (1 <<< ((y - 2) * 8 + x))
        else moves
      else moves
    let moves :=
      if 0 < x ∧ 0 < y ∧ opp_occ &&& (1 <<< ((y - 1) * 8 + x - 1)) ≠ 0 then
        moves ||| (1 <<< ((y - 1) * 8 + x - 1))
      else moves
    let moves :=
      if x < 7 ∧ 0 < y ∧ opp_occ &&& (1 <<< ((y - 1) * 8 + x + 1)) ≠ 0 then
        moves ||| (1 <<< ((y - 1) * 8 + x + 1))
      else moves
    match en_passant with
    | some (ex, ey) =>
      if ey + 1 = y ∧ (ex = x + 1 ∨ ex + 1 = x) then moves ||| (1 <<< (ey * 8 + ex))
      else moves
    | none => moves

/-- The per-target body of the inner `while targets != 0` loop of
`generate_moves_fast`: flag computation, the promotion block (with its
`continue`), the castle flags, and the `is_legal`-gated pushes.  The two
`index_to_algebraic(..).unwrap()`s cannot fail for `sq, to_sq < 64`
(always true of `u64` bitboard iteration); `getD ""` stands for them. -/
def gen_target (color : Color) (occ_opp : Nat) (pt : PieceType) (sq to_sq : Nat)
    (acc : List Move × Board) : List Move × Board :=
  let lst := acc.1
  let bc := acc.2
  let is_capture := occ_opp &&& (1 <<< to_sq) ≠ 0 ∨
    (pt = PieceType.Pawn ∧ ((to_sq : Int) - (sq : Int)).natAbs % 8 ≠ 0)
  let flags := if is_capture then Move.FLAG_CAPTURE else Move.FLAG_NORMAL
  let flags :=
    if pt = PieceType.Pawn then
      let dy := ((to_sq : Int) - (sq : Int)).natAbs
      let flags := if dy = 16 then Move.FLAG_DOUBLE_PUSH else flags
      if dy % 8 ≠ 0 ∧ occ_opp &&& (1 <<< to_sq) = 0 then Move.FLAG_EP_CAPTURE
      else flags
    else flags
  if pt = PieceType.Pawn ∧ (to_sq / 8 = 0 ∨ to_sq / 8 = 7) then
    let next_is_capture := occ_opp &&& (1 <<< to_sq) ≠ 0
    let f_s := (Board.index_to_algebraic (sq % 8) (sq / 8)).getD ""
    let t_s := (Board.index_to_algebraic (to_sq % 8) (to_sq / 8)).getD ""
    let trial := bc.is_legal f_s t_s color
    let lst :=
      if trial.1 then
        lst ++ [Move.promotion sq to_sq .Queen next_is_capture,
                Move.promotion sq to_sq .Rook next_is_capture,
                Move.promotion sq to_sq .Bishop next_is_capture,
                Move.promotion sq to_sq .Knight next_is_capture]
      else lst
    (lst, trial.2)
  else
    let flags :=
      if pt = PieceType.King ∧ ((to_sq : Int) - (sq : Int)).natAbs = 2 then
        if sq < to_sq then Move.FLAG_KING_CASTLE else Move.FLAG_QUEEN_CASTLE
      else flags
    let mv := Move.new sq to_sq flags
    let f_s := (Board.index_to_algebraic (sq % 8) (sq / 8)).getD ""
    let t_s := (Board.index_to_algebraic (to_sq % 8) (to_sq / 8)).getD ""
    let trial := bc.is_legal f_s t_s color
    let lst := if trial.1 then lst ++ [mv] else lst
    (lst, trial.2)

/-- `movegen.rs::generate_moves_fast`, paired with the threaded board
(the `&mut Board` is mutated and restored by each `is_legal` trial). -/
def generate_moves_fast (b : Board) (color : Color) : List Move × Board :=
  let cidx := color_idx color
  let opp_color := if color = .White then Color.Black else Color.White
  let occ_self := (List.range 6).foldl (fun a p => a ||| b.bitboards cidx p) 0
  let occ_opp := (List.range 6).foldl (fun a p => a ||| b.bitboards (1 - cidx) p) 0
  let occ_all := occ_self ||| occ_opp
  ([PieceType.Pawn, .Knight, .Bishop, .Rook, .Queen, .King]).foldl
    (fun (acc : List Move × Board) pt =>
      bitFold (fun sq (acc : List Move × Board) =>
        let bcur := acc.2
        let targets :=
          match pt with
          | .Pawn => pawn_moves sq color occ_all occ_opp bcur.en_passant
          | .Knight => KNIGHT_TABLE sq
          | .Bishop => bishop_attacks sq occ_all
          | .Rook => rook_attacks sq occ_all
          | .Queen => bishop_attacks sq occ_all ||| rook_attacks sq occ_all
          | .King =>
            let t := KING_TABLE sq
            let rank := if color = .White then 0 else 7
            if sq = rank * 8 + 4 then
              let t :=
                if bcur.castling cidx 0 ∧ (bcur.get_index 5 rank).isNone ∧
                    (bcur.get_index 6 rank).isNone ∧
                    ¬ bcur.is_square_attacked_by sq opp_color ∧
                    ¬ bcur.is_square_attacked_by (rank * 8 + 5) opp_color then
                  t ||| (1 <<< (rank * 8 + 6))
                else t
              if bcur.castling cidx 1 ∧ (bcur.get_index 1 rank).isNone ∧
                  (bcur.get_index 2 rank).isNone ∧ (bcur.get_index 3 rank).isNone ∧
                  ¬ bcur.is_square_attacked_by sq opp_color ∧
                  ¬ bcur.is_square_attacked_by (rank * 8 + 3) opp_color then
                t ||| (1 <<< (rank * 8 + 2))
              else t
            else t
        let targets := targets &&& (MASK64 ^^^ occ_self)
        bitFold (gen_target color occ_opp pt sq) targets acc)
        (b.bitboards cidx (piece_index pt)) acc)
    ([], b)

/-- `movegen.rs::generate_moves` (the string-pair wrapper). -/
def generate_moves (b : Board) (color : Color) : List (String × String) × Board :=
  let res := generate_moves_fast b color
  (res.1.map (fun m =>
    let f_str := (Board.index_to_algebraic (m.from_sq % 8) (m.from_sq / 8)).getD ""
    let t_str := (Board.index_to_algebraic (m.to_sq % 8) (m.to_sq / 8)).getD ""
    let t_str :=
      if m.is_promotion then
        match m.promotion_piece with
        | some pt =>
          t_str.push (match pt with
            | .Queen => 'q'
            | .Rook => 'r'
            | .Bishop => 'b'
            | .Knight => 'n'
            | _ => 'q')
        | none => t_str
      else t_str
    (f_str, t_str)), res.2)

/-- `Board::all_legal_moves_fast`. -/
def Board.all_legal_moves_fast (b : Board) (color : Color) :
    List (String × String) × Board :=
  generate_moves b color

/-! ## game.rs: the game driver -/

/-- `game.rs::Game` (`hash_counts` as its characteristic function). -/
structure Game where
  board : Board
  current_turn : Color
  history : List (String × String)
  hash_history : List Nat
  hash_counts : Nat → Nat
  result : Option Color

namespace Game

/-- `Game::make_move(start, end)`, paired with the resulting game state
(`&mut self` threading: the board mutated by the `is_legal` trial is kept
even on the `false` return). -/
def make_move (g : Game) (start endp : String) : Bool × Game :=
  if start = endp then (false, g)
  else
    let leg := g.board.is_legal start endp g.current_turn
    let g := { g with board := leg.2 }
    if ¬ leg.1 then (false, g)
    else
      match g.board.make_move_state start endp with
      | (some _state, b1) =>
        let g := { g with board := b1 }
        let g := { g with history := g.history ++ [(start, endp)] }
        let g := { g with current_turn :=
          (if g.current_turn = Color.White then Color.Black else Color.White) }
        let h := g.board.side_hash g.current_turn
        let g := { g with hash_history := g.hash_history ++ [h] }
        let g := { g with hash_counts :=
          (fun k => if k = h then g.hash_counts k + 1 else g.hash_counts k) }
        let lm := g.board.all_legal_moves_fast g.current_turn
        let g := { g with board := lm.2 }
        let g :=
          if lm.1.isEmpty then
            if g.board.in_check g.current_turn then
              { g with result :=
                (some (if g.current_turn = Color.White then Color.Black else Color.White)) }
            else g
          else g
        (true, g)
      | (none, b1) => (false, { g with board := b1 })

end Game

/-- White Ke1, Bf1, Rh1; Black Ne2, Kh8; White to move (reachable from
the start, e.g. 1.e4 Nc6 2.Nf3 Nd4 3.a3 Ne2 up to the extra material
removed here for a minimal example). -/
def gameC9 : Game where
  board :=
    ((((Board.new.set_index 4 0 (some { piece_type := .King, color := .White })).set_index
      5 0 (some { piece_type := .Bishop, color := .White })).set_index
      7 0 (some { piece_type := .Rook, color := .White })).set_index
      4 1 (some { piece_type := .Knight, color := .Black })).set_index
      7 7 (some { piece_type := .King, color := .Black })
  current_turn := .White
  history := []
  hash_history := []
  hash_counts := fun _ => 0
  result := none

/-- C9: `Game::make_move` on an illegal move is claimed to leave the
state unchanged.  It does not: asking for `e1g1` with a bishop on f1
drives `is_legal` down its castle trial, whose rook slide `h1 → f1`
overwrites the bishop; the final in-check test fails, `unmake_move` puts
the rook back but not the bishop, and `make_move` returns `false` with
the f1 bishop erased (and the Zobrist hash changed with it). -/
theorem game_make_move_illegal_corrupts_state :
    (gameC9.make_move "e1" "g1").1 = false ∧
    gameC9.board.get_index 5 0 =
      some { piece_type := PieceType.Bishop, color := Color.White } ∧
    ((gameC9.make_move "e1" "g1").2).board.get_index 5 0 = none := by
  exact ⟨rfl, rfl, rfl⟩

/-! ## Board consistency and `set_index` lemmas (towards claim C1) -/

/-- Inverse of `color_idx`. -/
def colorOfIdx (c : Nat) : Color := if c = 0 then .White else .Black

theorem colorOfIdx_color_idx (c : Color) : colorOfIdx (color_idx c) = c := by
  cases c <;> rfl

theorem piece_type_from_idx_piece_index (t : PieceType) :
    piece_type_from_idx (piece_index t) = t := by
  cases t <;> rfl

theorem piece_index_lt (t : PieceType) : piece_index t < 6 := by
  cases t <;> decide

theorem color_idx_lt (c : Color) : color_idx c < 2 := by
  cases c <;> decide

theorem piece_index_inj (s t : PieceType) (h : piece_index s = piece_index t) :
    s = t := by
  cases s <;> cases t <;> first | rfl | exact absurd h (by decide)

theorem color_idx_inj (c d : Color) (h : color_idx c = color_idx d) : c = d := by
  cases c <;> cases d <;> first | rfl | exact absurd h (by decide)

namespace Board

/-- The whole board is in lock-step: each bit of each `u64` bitboard is
set exactly when the corresponding square holds that piece, and the
bitboards fit in 64 bits. -/
def Consistent (b : Board) : Prop :=
  (∀ c, c < 2 → ∀ p, p < 6 → b.bitboards c p < 2 ^ 64) ∧
  (∀ c, c < 2 → ∀ p, p < 6 → ∀ x, x < 8 → ∀ y, y < 8 →
    ((b.bitboards c p).testBit (y * 8 + x) ↔
      b.squares y x = some { piece_type := piece_type_from_idx p,
                             color := colorOfIdx c }))

instance (b : Board) : Decidable b.Consistent := by
  unfold Consistent; infer_instance

theorem set_index_squares (b : Board) (x y : Nat) (p : Option Piece) :
    (b.set_index x y p).squares =
      fun y' x' => if y' = y ∧ x' = x then p else b.squares y' x' := by
  unfold set_index
  cases h : b.squares y x <;> cases p <;> rfl

theorem set_index_en_passant (b : Board) (x y : Nat) (p : Option Piece) :
    (b.set_index x y p).en_passant = b.en_passant := by
  unfold set_index
  cases h : b.squares y x <;> cases p <;> rfl

theorem set_index_castling (b : Board) (x y : Nat) (p : Option Piece) :
    (b.set_index x y p).castling = b.castling := by
  unfold set_index
  cases h : b.squares y x <;> cases p <;> rfl

/-- The bitboard effect of `set_index`: clear the old piece's bit, then
set the new piece's. -/
theorem set_index_bitboards (b : Board) (x y : Nat) (p : Option Piece)
    (c' p' : Nat) :
    (b.set_index x y p).bitboards c' p' =
      (let cleared :=
        match b.squares y x with
        | some old =>
          if c' = color_idx old.color ∧ p' = piece_index old.piece_type then
            b.bitboards c' p' &&& (MASK64 ^^^ sq_mask x y)
          else b.bitboards c' p'
        | none => b.bitboards c' p'
      match p with
      | some pce =>
        if c' = color_idx pce.color ∧ p' = piece_index pce.piece_type then
          cleared ||| sq_mask x y
        else cleared
      | none => cleared) := by
  unfold set_index
  cases h : b.squares y x <;> cases p <;> rfl

end Board

theorem color_idx_colorOfIdx (c : Nat) (h : c < 2) : color_idx (colorOfIdx c) = c := by
  interval_cases c <;> rfl

theorem piece_index_from_idx (p : Nat) (h : p < 6) :
    piece_index (piece_type_from_idx p) = p := by
  interval_cases p <;> rfl

theorem piece_eq_iff_idx (q : Piece) (c p : Nat) (hc : c < 2) (hp : p < 6) :
    (q = { piece_type := piece_type_from_idx p, color := colorOfIdx c }) ↔
      (c = color_idx q.color ∧ p = piece_index q.piece_type) := by
  constructor
  · rintro rfl
    exact ⟨(color_idx_colorOfIdx c hc).symm, (piece_index_from_idx p hp).symm⟩
  · rintro ⟨rfl, rfl⟩
    cases q
    simp [colorOfIdx_color_idx, piece_type_from_idx_piece_index]

namespace Board

theorem sq_mask_lt (x y : Nat) (hx : x < 8) (hy : y < 8) : sq_mask x y < 2 ^ 64 := by
  unfold sq_mask
  exact Nat.pow_lt_pow_right (by norm_num) (by omega)

theorem testBit_mask_ne (x y k : Nat) (hk : k < 64) (hne : y * 8 + x ≠ k) :
    (MASK64 ^^^ sq_mask x y).testBit k = true := by
  unfold MASK64 sq_mask
  rw [Nat.testBit_xor, Nat.testBit_two_pow_sub_one, Nat.testBit_two_pow]
  simp [hk, hne]

theorem testBit_mask_self (x y : Nat) (hx : x < 8) (hy : y < 8) :
    (MASK64 ^^^ sq_mask x y).testBit (y * 8 + x) = false := by
  unfold MASK64 sq_mask
  rw [Nat.testBit_xor, Nat.testBit_two_pow_sub_one, Nat.testBit_two_pow]
  simp
  omega

theorem consistent_set_index (b : Board) (x y : Nat) (pn : Option Piece)
    (hx : x < 8) (hy : y < 8) (hc : b.Consistent) :
    (b.set_index x y pn).Consistent := by
  obtain ⟨hbound, hbit⟩ := hc
  have hm : sq_mask x y < 2 ^ 64 := sq_mask_lt x y hx hy
  constructor
  · intro c hclt p hplt
    rw [Board.set_index_bitboards]
    have hb := hbound c hclt p hplt
    cases hsq : b.squares y x <;> cases pn <;>
      simp only [] <;>
      (try split_ifs) <;>
      first
        | exact hb
        | exact Nat.lt_of_le_of_lt Nat.and_le_left hb
        | exact Nat.or_lt_two_pow hb hm
        | exact Nat.or_lt_two_pow (Nat.lt_of_le_of_lt Nat.and_le_left hb) hm
  · intro c hclt p hplt x' hx' y' hy'
    rw [Board.set_index_bitboards]
    rw [Board.set_index_squares]
    have hk' : y' * 8 + x' < 64 := by omega
    by_cases hxy : y' = y ∧ x' = x
    · obtain ⟨rfl, rfl⟩ := hxy
      simp only [and_self, ite_true]
      cases hsq : b.squares y' x' <;> cases pn <;> simp only []
      · -- square was empty, clearing: unchanged board
        rw [hbit c hclt p hplt x' hx' y' hy', hsq]
      · -- square was empty, placing pce
        rename_i pce
        by_cases hidx : c = color_idx pce.color ∧ p = piece_index pce.piece_type
        · obtain ⟨rfl, rfl⟩ := hidx
          rw [if_pos ⟨rfl, rfl⟩, Nat.testBit_lor]
          unfold sq_mask
          rw [Nat.testBit_two_pow]
          have hpe : pce = { piece_type := piece_type_from_idx (piece_index pce.piece_type), color := colorOfIdx (color_idx pce.color) } := by
            cases pce
            simp [colorOfIdx_color_idx, piece_type_from_idx_piece_index]
          simp [← hpe]
        · rw [if_neg hidx, hbit c hclt p hplt x' hx' y' hy', hsq]
          constructor
          · intro h; cases h
          · intro h
            exact absurd ((piece_eq_iff_idx pce c p hclt hplt).mp (Option.some.inj h)) hidx
      · -- clearing old
        rename_i old
        by_cases hidx : c = color_idx old.color ∧ p = piece_index old.piece_type
        · obtain ⟨rfl, rfl⟩ := hidx
          rw [if_pos ⟨rfl, rfl⟩, Nat.testBit_land, testBit_mask_self x' y' hx' hy']
          simp
        · rw [if_neg hidx, hbit c hclt p hplt x' hx' y' hy', hsq]
          constructor
          · intro h
            exact absurd ((piece_eq_iff_idx old c p hclt hplt).mp (Option.some.inj h)) hidx
          · intro h; cases h
      · -- replacing old by pce
        rename_i old pce
        by_cases hidxN : c = color_idx pce.color ∧ p = piece_index pce.piece_type
        · obtain ⟨rfl, rfl⟩ := hidxN
          rw [if_pos ⟨rfl, rfl⟩, Nat.testBit_lor]
          unfold sq_mask
          rw [Nat.testBit_two_pow]
          have hpe : pce = { piece_type := piece_type_from_idx (piece_index pce.piece_type), color := colorOfIdx (color_idx pce.color) } := by
            cases pce
            simp [colorOfIdx_color_idx, piece_type_from_idx_piece_index]
          simp [← hpe]
        · rw [if_neg hidxN]
          have hrhs : (some pce = some { piece_type := piece_type_from_idx p, color := colorOfIdx c }) ↔ False := by
            constructor
            · intro h
              exact absurd ((piece_eq_iff_idx pce c p hclt hplt).mp (Option.some.inj h)) hidxN
            · intro h; cases h
          rw [hrhs]
          by_cases hidxO : c = color_idx old.color ∧ p = piece_index old.piece_type
          · rw [if_pos hidxO, Nat.testBit_land, testBit_mask_self x' y' hx' hy']
            simp
          · rw [if_neg hidxO, hbit c hclt p hplt x' hx' y' hy', hsq]
            constructor
            · intro h
              exact absurd ((piece_eq_iff_idx old c p hclt hplt).mp (Option.some.inj h)) hidxO
            · intro h; cases h
    · have hkk : y * 8 + x ≠ y' * 8 + x' := by omega
      simp only [if_neg hxy]
      have hstep : ∀ bb : Nat,
          (bb &&& (MASK64 ^^^ sq_mask x y)).testBit (y' * 8 + x') =
            bb.testBit (y' * 8 + x') := by
        intro bb
        rw [Nat.testBit_land, testBit_mask_ne x y _ hk' hkk]
        simp
      have hstep2 : ∀ bb : Nat,
          (bb ||| sq_mask x y).testBit (y' * 8 + x') = bb.testBit (y' * 8 + x') := by
        intro bb
        rw [Nat.testBit_lor]
        unfold sq_mask
        rw [Nat.testBit_two_pow]
        simp [hkk]
      cases hsq : b.squares y x <;> cases pn <;> simp only [] <;>
        (try split_ifs) <;>
        (try simp only [hstep, hstep2]) <;>
        exact hbit c hclt p hplt x' hx' y' hy'

end Board

theorem opposite_eq_if (color : Color) :
    (if color = Color.White then Color.Black else Color.White) = opposite color := by
  cases color <;> rfl

namespace Move

theorem from_sq_lt (m : Move) : m.from_sq < 64 := Nat.mod_lt _ (by norm_num)

theorem to_sq_lt (m : Move) : m.to_sq < 64 := Nat.mod_lt _ (by norm_num)

theorem flags_lt (m : Move) : m.flags < 16 := Nat.mod_lt _ (by norm_num)

theorem promotion_piece_none (m : Move) (h : m.is_promotion = false) :
    m.promotion_piece = none := by
  unfold is_promotion at h
  simp only [FLAG_PROMO_KNIGHT, decide_eq_false_iff_not, not_le] at h
  unfold promotion_piece
  unfold FLAG_PROMO_KNIGHT FLAG_PROMO_KNIGHT_CAP FLAG_PROMO_BISHOP FLAG_PROMO_BISHOP_CAP FLAG_PROMO_ROOK FLAG_PROMO_ROOK_CAP FLAG_PROMO_QUEEN FLAG_PROMO_QUEEN_CAP
  rw [if_neg (by omega), if_neg (by omega), if_neg (by omega), if_neg (by omega)]

theorem promotion_piece_isSome (m : Move) (h : m.is_promotion = true) :
    ∃ pt, m.promotion_piece = some pt := by
  unfold is_promotion at h
  simp only [FLAG_PROMO_KNIGHT, decide_eq_true_eq] at h
  have h16 := m.flags_lt
  unfold promotion_piece
  unfold FLAG_PROMO_KNIGHT FLAG_PROMO_KNIGHT_CAP FLAG_PROMO_BISHOP FLAG_PROMO_BISHOP_CAP FLAG_PROMO_ROOK FLAG_PROMO_ROOK_CAP FLAG_PROMO_QUEEN FLAG_PROMO_QUEEN_CAP
  by_cases h1 : m.flags = 8 ∨ m.flags = 12
  · exact ⟨_, if_pos h1⟩
  · rw [if_neg h1]
    by_cases h2 : m.flags = 9 ∨ m.flags = 13
    · exact ⟨_, if_pos h2⟩
    · rw [if_neg h2]
      by_cases h3 : m.flags = 10 ∨ m.flags = 14
      · exact ⟨_, if_pos h3⟩
      · rw [if_neg h3, if_pos (by omega)]
        exact ⟨_, rfl⟩

end Move

namespace Board

theorem board_eq (a b : Board) (h1 : a.squares = b.squares)
    (h2 : a.bitboards = b.bitboards) (h3 : a.hash = b.hash)
    (h4 : a.en_passant = b.en_passant) (h5 : a.castling = b.castling) :
    a = b := by
  cases a
  cases b
  simp_all

/-- Consistency only looks at squares and bitboards. -/
theorem consistent_of_eq (a b : Board) (h1 : a.squares = b.squares)
    (h2 : a.bitboards = b.bitboards) (hb : b.Consistent) : a.Consistent := by
  obtain ⟨hb1, hb2⟩ := hb
  constructor
  · intro c hc p hp
    rw [h2]
    exact hb1 c hc p hp
  · intro c hc p hp x hx y hy
    rw [h1, h2]
    exact hb2 c hc p hp x hx y hy

/-- `set_index` never touches a bitboard outside the `2 × 6` range. -/
theorem set_index_bitboards_out (b : Board) (x y : Nat) (pn : Option Piece)
    (c p : Nat) (h : 2 ≤ c ∨ 6 ≤ p) :
    (b.set_index x y pn).bitboards c p = b.bitboards c p := by
  rw [set_index_bitboards]
  have hno : ∀ q : Piece, ¬(c = color_idx q.color ∧ p = piece_index q.piece_type) := by
    intro q hq
    have h1 := color_idx_lt q.color
    have h2 := piece_index_lt q.piece_type
    omega
  cases hsq : b.squares y x <;> cases pn <;> simp only [] <;>
    (try rw [if_neg (hno _)]) <;> (try rw [if_neg (hno _)]) <;> rfl

/-- Two consistent boards with the same squares, agreeing outside the
`2 × 6` bitboard range, have identical bitboards. -/
theorem bitboards_eq_of_consistent (a b : Board) (ha : a.Consistent)
    (hb : b.Consistent) (hsq : a.squares = b.squares)
    (hout : ∀ c p, 2 ≤ c ∨ 6 ≤ p → a.bitboards c p = b.bitboards c p) :
    a.bitboards = b.bitboards := by
  funext c p
  by_cases hcp : c < 2 ∧ p < 6
  · obtain ⟨hc, hp⟩ := hcp
    obtain ⟨hab, habit⟩ := ha
    obtain ⟨hbb, hbbit⟩ := hb
    apply Nat.eq_of_testBit_eq
    intro k
    by_cases hk : k < 64
    · have h1 := habit c hc p hp (k % 8) (by omega) (k / 8) (by omega)
      have h2 := hbbit c hc p hp (k % 8) (by omega) (k / 8) (by omega)
      have hk8 : k / 8 * 8 + k % 8 = k := by omega
      rw [hk8] at h1 h2
      rw [hsq] at h1
      rw [Bool.eq_iff_iff, h1, h2]
    · have h1 : a.bitboards c p < 2 ^ k :=
        lt_of_lt_of_le (hab c hc p hp) (Nat.pow_le_pow_right (by norm_num) (by omega))
      have h2 : b.bitboards c p < 2 ^ k :=
        lt_of_lt_of_le (hbb c hc p hp) (Nat.pow_le_pow_right (by norm_num) (by omega))
      rw [Nat.testBit_eq_false_of_lt h1, Nat.testBit_eq_false_of_lt h2]
  · exact hout c p (by omega)

/-- `unpack_castling ∘ pack_castling` restores the four real castling
rights; entries outside the `2 × 2` range fall through to the
intermediate board, assumed untouched there. -/
theorem unpack_pack_castling (bmid b : Board)
    (hout : ∀ i j, ¬(i < 2 ∧ j < 2) → bmid.castling i j = b.castling i j) :
    (bmid.unpack_castling b.pack_castling).castling = b.castling := by
  funext i j
  by_cases h : i < 2 ∧ j < 2
  · obtain ⟨hi, hj⟩ := h
    interval_cases i <;> interval_cases j <;>
      by_cases hA : b.castling 0 0 = true <;> by_cases hB : b.castling 0 1 = true <;>
      by_cases hC : b.castling 1 0 = true <;> by_cases hD : b.castling 1 1 = true <;>
      simp [unpack_castling, pack_castling, hA, hB, hC, hD] <;> decide
  · have h1 : ¬(i = 0 ∧ j = 0) := by omega
    have h2 : ¬(i = 0 ∧ j = 1) := by omega
    have h3 : ¬(i = 1 ∧ j = 0) := by omega
    have h4 : ¬(i = 1 ∧ j = 1) := by omega
    simp only [unpack_castling, if_neg h1, if_neg h2, if_neg h3, if_neg h4]
    exact hout i j h

/-- Decoding the stored en-passant index restores the en-passant target,
as long as its coordinates are in range. -/
theorem prev_ep_decode (e : Option (Nat × Nat)) (pe : Nat)
    (hpe : pe = (match e with
                 | some (x, y) => y * 8 + x
                 | none => UndoState.NO_EP))
    (h : ∀ x y, e = some (x, y) → x < 8 ∧ y < 8) :
    (if pe = UndoState.NO_EP then none
     else some (pe % 8, pe / 8)) = e := by
  subst hpe
  cases e with
  | none => rfl
  | some xy =>
    obtain ⟨x, y⟩ := xy
    obtain ⟨hx, hy⟩ := h x y rfl
    simp only [UndoState.NO_EP]
    rw [if_neg (by omega)]
    have hxe : (y * 8 + x) % 8 = x := by omega
    have hye : (y * 8 + x) / 8 = y := by omega
    rw [hxe, hye]

end Board

namespace Board

/-- The common tail of `unmake_move_fast`: restoring en passant, castling
and the hash turns any board that already has the right squares back into
the original. -/
theorem unmake_tail_eq (b B3 : Board) (pe pc ph : Nat)
    (hsq : B3.squares = b.squares)
    (hcons3 : B3.Consistent) (hconsb : b.Consistent)
    (hbbout : ∀ c p, 2 ≤ c ∨ 6 ≤ p → B3.bitboards c p = b.bitboards c p)
    (hcout : ∀ i j, ¬(i < 2 ∧ j < 2) → B3.castling i j = b.castling i j)
    (hpe : (if pe = UndoState.NO_EP then none
            else some (pe % 8, pe / 8)) = b.en_passant)
    (hpc : pc = b.pack_castling) (hph : ph = b.hash) :
    { ({ B3 with en_passant :=
          (if pe = UndoState.NO_EP then none
           else some (pe % 8, pe / 8)) }).unpack_castling pc
      with hash := ph } = b := by
  apply board_eq
  · show B3.squares = b.squares
    exact hsq
  · show B3.bitboards = b.bitboards
    exact bitboards_eq_of_consistent B3 b hcons3 hconsb hsq hbbout
  · exact hph
  · show (if pe = UndoState.NO_EP then none
          else some (pe % 8, pe / 8)) = b.en_passant
    exact hpe
  · rw [hpc]
    exact unpack_pack_castling _ b (fun i j h => hcout i j h)

end Board

namespace Board

/-- The preamble of `make_move_fast_rest`: castling-right maintenance,
en-passant reset, the castling rook shuttle and the double-push target,
before the two final square writes. -/
def rest_pre (b : Board) (mv : Move) (color : Color) (piece : Piece)
    (captured : Option Piece) : Board :=
  let from_x := mv.from_sq % 8
  let from_y := mv.from_sq / 8
  let to_x := mv.to_sq % 8
  let to_y := mv.to_sq / 8
  let cidx := color_idx color
  let b :=
    match piece.piece_type with
    | .King =>
      { b with castling := fun i j =>
          if i = cidx ∧ (j = 0 ∨ j = 1) then false else b.castling i j }
    | .Rook =>
      { b with castling := fun i j =>
          if i = cidx ∧ j = 1 ∧ from_x = 0 then false
          else if i = cidx ∧ j = 0 ∧ from_x = 7 then false
          else b.castling i j }
    | _ => b
  let b :=
    if captured.isSome then
      let opp := 1 - cidx
      let b :=
        if to_x = 0 ∧ (to_y = 0 ∨ to_y = 7) ∧ to_y = (if opp = 0 then 0 else 7) then
          { b with castling := fun i j =>
              if i = opp ∧ j = 1 then false else b.castling i j }
        else b
      if to_x = 7 ∧ (to_y = 0 ∨ to_y = 7) ∧ to_y = (if opp = 0 then 0 else 7) then
        { b with castling := fun i j =>
            if i = opp ∧ j = 0 then false else b.castling i j }
      else b
    else b
  let b := { b with en_passant := none }
  let b :=
    if mv.is_castle then
      let rank := from_y
      if mv.flags = Move.FLAG_KING_CASTLE then
        let rook := b.get_index 7 rank
        (b.set_index 5 rank rook).set_index 7 rank none
      else
        let rook := b.get_index 0 rank
        (b.set_index 3 rank rook).set_index 0 rank none
    else b
  let b :=
    if mv.is_double_push then
      let ep_y := if color = .White then from_y + 1 else from_y - 1
      { b with en_passant := some (from_x, ep_y) }
    else b
  b

/-- `make_move_fast_rest` is the preamble followed by the two square
writes and the undo record. -/
theorem make_move_fast_rest_eq (b : Board) (mv : Move) (color : Color)
    (piece : Piece) (captured : Option Piece) (ci cs pe pc ph : Nat) :
    make_move_fast_rest b mv color piece captured ci cs pe pc ph =
      (((rest_pre b mv color piece captured).set_index
          (mv.to_sq % 8) (mv.to_sq / 8)
          (some (match mv.promotion_piece with
                 | some pt => { piece_type := pt, color := color }
                 | none => piece))).set_index
          (mv.from_sq % 8) (mv.from_sq / 8) none,
       { mv := mv, captured := ci, captured_sq := cs, prev_ep := pe,
         prev_castling := pc, prev_hash := ph }) := rfl

theorem rest_pre_squares (b : Board) (mv : Move) (color : Color)
    (piece : Piece) (captured : Option Piece) (hncas : mv.is_castle = false) :
    (rest_pre b mv color piece captured).squares = b.squares := by
  cases hpt : piece.piece_type <;>
    simp only [rest_pre, hpt, hncas, Bool.false_eq_true, if_false,
      apply_ite Board.squares, ite_self]

theorem rest_pre_bitboards (b : Board) (mv : Move) (color : Color)
    (piece : Piece) (captured : Option Piece) (hncas : mv.is_castle = false) :
    (rest_pre b mv color piece captured).bitboards = b.bitboards := by
  cases hpt : piece.piece_type <;>
    simp only [rest_pre, hpt, hncas, Bool.false_eq_true, if_false,
      apply_ite Board.bitboards, ite_self]

theorem rest_pre_hash (b : Board) (mv : Move) (color : Color)
    (piece : Piece) (captured : Option Piece) (hncas : mv.is_castle = false) :
    (rest_pre b mv color piece captured).hash = b.hash := by
  cases hpt : piece.piece_type <;>
    simp only [rest_pre, hpt, hncas, Bool.false_eq_true, if_false,
      apply_ite Board.hash, ite_self]

theorem rest_pre_castling_out (b : Board) (mv : Move) (color : Color)
    (piece : Piece) (captured : Option Piece) (hncas : mv.is_castle = false)
    (i j : Nat) (hij : ¬(i < 2 ∧ j < 2)) :
    (rest_pre b mv color piece captured).castling i j = b.castling i j := by
  have hcx := color_idx_lt color
  have h1 : ¬(i = color_idx color ∧ (j = 0 ∨ j = 1)) := by omega
  have h2 : ¬(i = color_idx color ∧ j = 1 ∧ mv.from_sq % 8 = 0) := by omega
  have h3 : ¬(i = color_idx color ∧ j = 0 ∧ mv.from_sq % 8 = 7) := by omega
  have h4 : ¬(i = 1 - color_idx color ∧ j = 1) := by omega
  have h5 : ¬(i = 1 - color_idx color ∧ j = 0) := by omega
  cases hpt : piece.piece_type <;>
    simp only [rest_pre, hpt, hncas, Bool.false_eq_true, if_false,
      apply_ite (fun bb : Board => bb.castling i j),
      if_neg h1, if_neg h2, if_neg h3, if_neg h4, if_neg h5, ite_self]

end Board

namespace Board

/-- Core of the plain-move round trip: `unmake_move_fast` applied to the
two-write result of a non-castling `make_move_fast` restores `b`. -/
theorem roundtrip_plain_core (b bcr : Board) (mv : Move) (color : Color)
    (piece mp : Piece) (ci pe pc ph : Nat)
    (hcons : b.Consistent)
    (hbsq : bcr.squares = b.squares) (hbbb : bcr.bitboards = b.bitboards)
    (hbcout : ∀ i j, ¬(i < 2 ∧ j < 2) → bcr.castling i j = b.castling i j)
    (hfrom : b.squares (mv.from_sq / 8) (mv.from_sq % 8) = some piece)
    (hne : ¬(mv.from_sq / 8 = mv.to_sq / 8 ∧ mv.from_sq % 8 = mv.to_sq % 8))
    (hmov : (if mv.is_promotion = true
             then { piece_type := PieceType.Pawn, color := mp.color }
             else mp) = piece)
    (hci : ci = (match b.squares (mv.to_sq / 8) (mv.to_sq % 8) with
                 | some cap => piece_index cap.piece_type
                 | none => UndoState.NO_CAPTURE))
    (hcap : ∀ q, b.squares (mv.to_sq / 8) (mv.to_sq % 8) = some q →
        q.color = opposite color)
    (hncas : mv.is_castle = false)
    (hpe : (if pe = UndoState.NO_EP then none
            else some (pe % 8, pe / 8)) = b.en_passant)
    (hpc : pc = b.pack_castling) (hph : ph = b.hash) :
    unmake_move_fast
      ((bcr.set_index (mv.to_sq % 8) (mv.to_sq / 8) (some mp)).set_index
        (mv.from_sq % 8) (mv.from_sq / 8) none)
      { mv := mv, captured := ci, captured_sq := mv.to_sq,
        prev_ep := pe, prev_castling := pc, prev_hash := ph } color = some b := by
  have hfx : mv.from_sq % 8 < 8 := Nat.mod_lt _ (by norm_num)
  have hfy : mv.from_sq / 8 < 8 := by have := mv.from_sq_lt; omega
  have htx : mv.to_sq % 8 < 8 := Nat.mod_lt _ (by norm_num)
  have hty : mv.to_sq / 8 < 8 := by have := mv.to_sq_lt; omega
  have hconscr : bcr.Consistent := consistent_of_eq bcr b hbsq hbbb hcons
  have hne2 : ¬(mv.to_sq / 8 = mv.from_sq / 8 ∧ mv.to_sq % 8 = mv.from_sq % 8) := by
    omega
  have htt : mv.to_sq / 8 = mv.to_sq / 8 ∧ mv.to_sq % 8 = mv.to_sq % 8 := ⟨rfl, rfl⟩
  simp only [unmake_move_fast, get_index, hncas, Bool.false_eq_true, if_false,
    set_index_squares]
  rw [if_neg hne2]
  simp only [and_self, if_true]
  rw [hmov]
  cases hq : b.squares (mv.to_sq / 8) (mv.to_sq % 8) with
  | none =>
    rw [hq] at hci
    simp only [] at hci
    subst hci
    have hnc : ({ mv := mv, captured := UndoState.NO_CAPTURE, captured_sq := mv.to_sq, prev_ep := pe, prev_castling := pc, prev_hash := ph } : UndoState).has_capture = false := rfl
    rw [hnc]
    simp only [Bool.false_eq_true, if_false]
    refine congrArg some (unmake_tail_eq b _ pe pc ph ?_ ?_ hcons ?_ ?_ hpe hpc hph)
    · funext y' x'
      simp only [set_index_squares, hbsq]
      split_ifs with h1 h2
      · obtain ⟨rfl, rfl⟩ := h1
        exact hq.symm
      · obtain ⟨rfl, rfl⟩ := h2
        exact hfrom.symm
      · rfl
    · exact consistent_set_index _ _ _ _ htx hty
        (consistent_set_index _ _ _ _ hfx hfy
          (consistent_set_index _ _ _ _ hfx hfy
            (consistent_set_index _ _ _ _ htx hty hconscr)))
    · intro c p h
      repeat rw [set_index_bitboards_out _ _ _ _ _ _ h]
      rw [hbbb]
    · intro i j hij
      simp only [set_index_castling]
      exact hbcout i j hij
  | some q =>
    rw [hq] at hci
    simp only [] at hci
    subst hci
    have hhc : ({ mv := mv, captured := piece_index q.piece_type, captured_sq := mv.to_sq, prev_ep := pe, prev_castling := pc, prev_hash := ph } : UndoState).has_capture = true := by
      simp only [UndoState.has_capture, UndoState.NO_CAPTURE]
      rw [decide_eq_true_eq]
      exact Nat.ne_of_lt (piece_index_lt q.piece_type)
    rw [if_pos hhc]
    rw [piece_type_from_idx_piece_index, opposite_eq_if color,
      ← hcap q hq]
    have hqq : ({ piece_type := q.piece_type, color := q.color } : Piece) = q := by
      cases q
      rfl
    rw [hqq]
    refine congrArg some (unmake_tail_eq b _ pe pc ph ?_ ?_ hcons ?_ ?_ hpe hpc hph)
    · funext y' x'
      simp only [set_index_squares, hbsq]
      split_ifs with h1 h2
      · obtain ⟨rfl, rfl⟩ := h1
        exact hq.symm
      · obtain ⟨rfl, rfl⟩ := h2
        exact hfrom.symm
      · rfl
    · exact consistent_set_index _ _ _ _ htx hty
        (consistent_set_index _ _ _ _ htx hty
          (consistent_set_index _ _ _ _ hfx hfy
            (consistent_set_index _ _ _ _ hfx hfy
              (consistent_set_index _ _ _ _ htx hty hconscr))))
    · intro c p h
      repeat rw [set_index_bitboards_out _ _ _ _ _ _ h]
      rw [hbbb]
    · intro i j hij
      simp only [set_index_castling]
      exact hbcout i j hij

end Board

namespace Board

/-- Round trip for every non-castling, non-en-passant move whose shape is
legal: quiet moves, captures, double pushes and promotions. -/
theorem roundtrip_plain (b : Board) (mv : Move) (color : Color) (piece : Piece)
    (hcons : b.Consistent)
    (hepr : ∀ x y, b.en_passant = some (x, y) → x < 8 ∧ y < 8)
    (hnep : mv.is_ep = false) (hncas : mv.is_castle = false)
    (hfrom : b.squares (mv.from_sq / 8) (mv.from_sq % 8) = some piece)
    (hcol : piece.color = color)
    (hpromo : mv.is_promotion = true → piece.piece_type = PieceType.Pawn)
    (hne : ¬(mv.from_sq / 8 = mv.to_sq / 8 ∧ mv.from_sq % 8 = mv.to_sq % 8))
    (hcap : ∀ q, b.squares (mv.to_sq / 8) (mv.to_sq % 8) = some q →
        q.color = opposite color) :
    (b.make_move_fast mv color).bind
      (fun r => r.1.unmake_move_fast r.2 color) = some b := by
  have hmov : (if mv.is_promotion = true
      then { piece_type := PieceType.Pawn,
             color := (match mv.promotion_piece with
                       | some pt => { piece_type := pt, color := color }
                       | none => piece : Piece).color }
      else (match mv.promotion_piece with
            | some pt => { piece_type := pt, color := color }
            | none => piece : Piece)) = piece := by
    by_cases hpr : mv.is_promotion = true
    · obtain ⟨pt, hpt⟩ := mv.promotion_piece_isSome hpr
      rw [hpt, if_pos hpr]
      have h1 := hpromo hpr
      obtain ⟨a, c0⟩ := piece
      simp only [] at h1 hcol ⊢
      rw [h1, hcol]
    · have hf : mv.is_promotion = false := by
        simpa using hpr
      rw [mv.promotion_piece_none hf, if_neg hpr]
  simp only [make_move_fast, get_index]
  rw [hfrom]
  simp only [hnep, Bool.false_eq_true, if_false]
  rw [make_move_fast_rest_eq]
  simp only [Option.some_bind]
  exact roundtrip_plain_core b (rest_pre b mv color piece
      (b.squares (mv.to_sq / 8) (mv.to_sq % 8))) mv color piece _ _ _ _ _
    hcons
    (rest_pre_squares b mv color piece _ hncas)
    (rest_pre_bitboards b mv color piece _ hncas)
    (fun i j h => rest_pre_castling_out b mv color piece _ hncas i j h)
    hfrom hne hmov rfl hcap hncas
    (prev_ep_decode b.en_passant _ rfl hepr) rfl rfl

end Board

namespace Board

/-- Round trip for en-passant captures. -/
theorem roundtrip_ep (b : Board) (mv : Move) (color : Color) (piece cap : Piece)
    (hcons : b.Consistent)
    (hepr : ∀ x y, b.en_passant = some (x, y) → x < 8 ∧ y < 8)
    (hisep : mv.is_ep = true)
    (hfrom : b.squares (mv.from_sq / 8) (mv.from_sq % 8) = some piece)
    (hto : b.squares (mv.to_sq / 8) (mv.to_sq % 8) = none)
    (hfxne : mv.from_sq % 8 ≠ mv.to_sq % 8)
    (hwy : color = Color.White → 1 ≤ mv.to_sq / 8)
    (hby : color = Color.Black → mv.to_sq / 8 ≤ 6)
    (hcappos : b.squares
        (if color = Color.White then mv.to_sq / 8 - 1 else mv.to_sq / 8 + 1)
        (mv.to_sq % 8) = some cap)
    (hcapcol : cap.color = opposite color) :
    (b.make_move_fast mv color).bind
      (fun r => r.1.unmake_move_fast r.2 color) = some b := by
  have hflag : mv.flags = 5 := by
    have h := hisep
    unfold Move.is_ep at h
    simpa [Move.FLAG_EP_CAPTURE] using h
  have hncas : mv.is_castle = false := by
    simp [Move.is_castle, hflag, Move.FLAG_KING_CASTLE, Move.FLAG_QUEEN_CASTLE]
  have hnpr : mv.is_promotion = false := by
    simp [Move.is_promotion, hflag, Move.FLAG_PROMO_KNIGHT]
  have hfx : mv.from_sq % 8 < 8 := Nat.mod_lt _ (by norm_num)
  have hfy : mv.from_sq / 8 < 8 := by have := mv.from_sq_lt; omega
  have htx : mv.to_sq % 8 < 8 := Nat.mod_lt _ (by norm_num)
  have hty : mv.to_sq / 8 < 8 := by have := mv.to_sq_lt; omega
  have hcy8 : (if color = Color.White then mv.to_sq / 8 - 1
               else mv.to_sq / 8 + 1) < 8 := by
    cases color with
    | White => rw [if_pos rfl]; omega
    | Black => rw [if_neg (by decide)]; have := hby rfl; omega
  have hcyne : (if color = Color.White then mv.to_sq / 8 - 1
                else mv.to_sq / 8 + 1) ≠ mv.to_sq / 8 := by
    cases color with
    | White => rw [if_pos rfl]; have := hwy rfl; omega
    | Black => rw [if_neg (by decide)]; omega
  have hne2 : ¬(mv.to_sq / 8 = mv.from_sq / 8 ∧ mv.to_sq % 8 = mv.from_sq % 8) := by
    omega
  simp only [make_move_fast, get_index]
  rw [hfrom]
  simp only [hisep, if_true]
  rw [hcappos]
  simp only []
  rw [make_move_fast_rest_eq]
  simp only [Option.some_bind]
  rw [mv.promotion_piece_none hnpr]
  simp only [unmake_move_fast, get_index, hncas, Bool.false_eq_true, if_false,
    set_index_squares]
  rw [if_neg hne2]
  simp only [and_self, if_true, hnpr, Bool.false_eq_true, if_false]
  have hhc : ({ mv := mv, captured := piece_index cap.piece_type, captured_sq := (if color = Color.White then mv.to_sq / 8 - 1 else mv.to_sq / 8 + 1) * 8 + mv.to_sq % 8, prev_ep := (match b.en_passant with | some (x, y) => y * 8 + x | none => UndoState.NO_EP), prev_castling := b.pack_castling, prev_hash := b.hash } : UndoState).has_capture = true := by
    simp only [UndoState.has_capture, UndoState.NO_CAPTURE]
    rw [decide_eq_true_eq]
    exact Nat.ne_of_lt (piece_index_lt cap.piece_type)
  rw [if_pos hhc]
  have hcxe : ((if color = Color.White then mv.to_sq / 8 - 1
      else mv.to_sq / 8 + 1) * 8 + mv.to_sq % 8) % 8 = mv.to_sq % 8 := by
    omega
  have hcye : ((if color = Color.White then mv.to_sq / 8 - 1
      else mv.to_sq / 8 + 1) * 8 + mv.to_sq % 8) / 8 =
      (if color = Color.White then mv.to_sq / 8 - 1 else mv.to_sq / 8 + 1) := by
    omega
  rw [hcxe, hcye, piece_type_from_idx_piece_index, opposite_eq_if color,
    ← hcapcol]
  have hqq : ({ piece_type := cap.piece_type, color := cap.color } : Piece) = cap := by
    cases cap
    rfl
  rw [hqq]
  have hpre : (rest_pre (b.set_index (mv.to_sq % 8)
      (if color = Color.White then mv.to_sq / 8 - 1 else mv.to_sq / 8 + 1) none)
      mv color piece (b.squares (mv.to_sq / 8) (mv.to_sq % 8))).squares =
      (b.set_index (mv.to_sq % 8)
        (if color = Color.White then mv.to_sq / 8 - 1
         else mv.to_sq / 8 + 1) none).squares :=
    rest_pre_squares _ mv color piece _ hncas
  have hpreb : (rest_pre (b.set_index (mv.to_sq % 8)
      (if color = Color.White then mv.to_sq / 8 - 1 else mv.to_sq / 8 + 1) none)
      mv color piece (b.squares (mv.to_sq / 8) (mv.to_sq % 8))).bitboards =
      (b.set_index (mv.to_sq % 8)
        (if color = Color.White then mv.to_sq / 8 - 1
         else mv.to_sq / 8 + 1) none).bitboards :=
    rest_pre_bitboards _ mv color piece _ hncas
  refine congrArg some (unmake_tail_eq b _ _ b.pack_castling b.hash ?_ ?_ hcons
    ?_ ?_ (prev_ep_decode b.en_passant _ rfl hepr) rfl rfl)
  · funext y' x'
    simp only [set_index_squares, hpre]
    (try simp only [set_index_squares])
    by_cases hA : y' = (if color = Color.White then mv.to_sq / 8 - 1
        else mv.to_sq / 8 + 1) ∧ x' = mv.to_sq % 8
    · rw [if_pos hA]
      obtain ⟨rfl, rfl⟩ := hA
      exact hcappos.symm
    · simp only [if_neg hA]
      by_cases hB : y' = mv.to_sq / 8 ∧ x' = mv.to_sq % 8
      · rw [if_pos hB]
        obtain ⟨rfl, rfl⟩ := hB
        exact hto.symm
      · simp only [if_neg hB]
        by_cases hC : y' = mv.from_sq / 8 ∧ x' = mv.from_sq % 8
        · rw [if_pos hC]
          obtain ⟨rfl, rfl⟩ := hC
          exact hfrom.symm
        · simp only [if_neg hC]
  · exact consistent_set_index _ _ _ _ htx hcy8
      (consistent_set_index _ _ _ _ htx hty
        (consistent_set_index _ _ _ _ hfx hfy
          (consistent_set_index _ _ _ _ hfx hfy
            (consistent_set_index _ _ _ _ htx hty
              (consistent_of_eq _ _ hpre hpreb
                (consistent_set_index _ _ _ _ htx hcy8 hcons))))))
  · intro c p h
    repeat rw [set_index_bitboards_out _ _ _ _ _ _ h]
    rw [hpreb]
    rw [set_index_bitboards_out _ _ _ _ _ _ h]
  · intro i j hij
    simp only [set_index_castling]
    rw [rest_pre_castling_out _ mv color piece _ hncas i j hij,
      set_index_castling]

end Board

namespace Board

/-- The record-update part of the `make_move_fast_rest` preamble:
castling-right maintenance and the en-passant reset, before any castle
rook shuttle. -/
def record_pre (b : Board) (mv : Move) (color : Color) (piece : Piece)
    (captured : Option Piece) : Board :=
  let from_x := mv.from_sq % 8
  let to_x := mv.to_sq % 8
  let to_y := mv.to_sq / 8
  let cidx := color_idx color
  let b :=
    match piece.piece_type with
    | .King =>
      { b with castling := fun i j =>
          if i = cidx ∧ (j = 0 ∨ j = 1) then false else b.castling i j }
    | .Rook =>
      { b with castling := fun i j =>
          if i = cidx ∧ j = 1 ∧ from_x = 0 then false
          else if i = cidx ∧ j = 0 ∧ from_x = 7 then false
          else b.castling i j }
    | _ => b
  let b :=
    if captured.isSome then
      let opp := 1 - cidx
      let b :=
        if to_x = 0 ∧ (to_y = 0 ∨ to_y = 7) ∧ to_y = (if opp = 0 then 0 else 7) then
          { b with castling := fun i j =>
              if i = opp ∧ j = 1 then false else b.castling i j }
        else b
      if to_x = 7 ∧ (to_y = 0 ∨ to_y = 7) ∧ to_y = (if opp = 0 then 0 else 7) then
        { b with castling := fun i j =>
            if i = opp ∧ j = 0 then false else b.castling i j }
      else b
    else b
  { b with en_passant := none }

theorem record_pre_squares (b : Board) (mv : Move) (color : Color)
    (piece : Piece) (captured : Option Piece) :
    (record_pre b mv color piece captured).squares = b.squares := by
  cases hpt : piece.piece_type <;>
    simp only [record_pre, hpt, apply_ite Board.squares, ite_self]

theorem record_pre_bitboards (b : Board) (mv : Move) (color : Color)
    (piece : Piece) (captured : Option Piece) :
    (record_pre b mv color piece captured).bitboards = b.bitboards := by
  cases hpt : piece.piece_type <;>
    simp only [record_pre, hpt, apply_ite Board.bitboards, ite_self]

theorem record_pre_castling_out (b : Board) (mv : Move) (color : Color)
    (piece : Piece) (captured : Option Piece)
    (i j : Nat) (hij : ¬(i < 2 ∧ j < 2)) :
    (record_pre b mv color piece captured).castling i j = b.castling i j := by
  have hcx := color_idx_lt color
  have h1 : ¬(i = color_idx color ∧ (j = 0 ∨ j = 1)) := by omega
  have h2 : ¬(i = color_idx color ∧ j = 1 ∧ mv.from_sq % 8 = 0) := by omega
  have h3 : ¬(i = color_idx color ∧ j = 0 ∧ mv.from_sq % 8 = 7) := by omega
  have h4 : ¬(i = 1 - color_idx color ∧ j = 1) := by omega
  have h5 : ¬(i = 1 - color_idx color ∧ j = 0) := by omega
  cases hpt : piece.piece_type <;>
    simp only [record_pre, hpt,
      apply_ite (fun bb : Board => bb.castling i j),
      if_neg h1, if_neg h2, if_neg h3, if_neg h4, if_neg h5, ite_self]

/-- For a king-side castle, the preamble is the record part followed by
the rook shuttle `h-file → f-file`. -/
theorem rest_pre_castle_king (b : Board) (mv : Move) (color : Color)
    (piece : Piece) (captured : Option Piece)
    (hcas : mv.is_castle = true) (hkc : mv.flags = Move.FLAG_KING_CASTLE)
    (hdp : mv.is_double_push = false) :
    rest_pre b mv color piece captured =
      ((record_pre b mv color piece captured).set_index 5 (mv.from_sq / 8)
        ((record_pre b mv color piece captured).get_index 7
          (mv.from_sq / 8))).set_index 7 (mv.from_sq / 8) none := by
  simp only [rest_pre, record_pre, hcas, if_true, hkc, hdp,
    Bool.false_eq_true, if_false]

/-- For a queen-side castle, the preamble is the record part followed by
the rook shuttle `a-file → d-file`. -/
theorem rest_pre_castle_queen (b : Board) (mv : Move) (color : Color)
    (piece : Piece) (captured : Option Piece)
    (hcas : mv.is_castle = true) (hqc : mv.flags = Move.FLAG_QUEEN_CASTLE)
    (hdp : mv.is_double_push = false) :
    rest_pre b mv color piece captured =
      ((record_pre b mv color piece captured).set_index 3 (mv.from_sq / 8)
        ((record_pre b mv color piece captured).get_index 0
          (mv.from_sq / 8))).set_index 0 (mv.from_sq / 8) none := by
  simp only [rest_pre, record_pre, hcas, if_true, hqc,
    Move.FLAG_KING_CASTLE, Move.FLAG_QUEEN_CASTLE, hdp,
    Bool.false_eq_true, if_false]
  rw [if_neg (show (3 : Nat) ≠ 2 by decide)]

end Board

namespace Board

/-- Round trip for king-side castling. -/
theorem roundtrip_castle_king (b : Board) (mv : Move) (color : Color)
    (piece : Piece)
    (hcons : b.Consistent)
    (hepr : ∀ x y, b.en_passant = some (x, y) → x < 8 ∧ y < 8)
    (hkc : mv.flags = Move.FLAG_KING_CASTLE)
    (hfrom : b.squares (mv.from_sq / 8) (mv.from_sq % 8) = some piece)
    (hfx4 : mv.from_sq % 8 = 4) (htx6 : mv.to_sq % 8 = 6)
    (hfyty : mv.from_sq / 8 = mv.to_sq / 8)
    (hto : b.squares (mv.to_sq / 8) (mv.to_sq % 8) = none)
    (hr5 : b.squares (mv.from_sq / 8) 5 = none) :
    (b.make_move_fast mv color).bind
      (fun r => r.1.unmake_move_fast r.2 color) = some b := by
  have hiscas : mv.is_castle = true := by
    simp [Move.is_castle, hkc, Move.FLAG_KING_CASTLE, Move.FLAG_QUEEN_CASTLE]
  have hnep : mv.is_ep = false := by
    simp [Move.is_ep, hkc, Move.FLAG_KING_CASTLE, Move.FLAG_EP_CAPTURE]
  have hnpr : mv.is_promotion = false := by
    simp [Move.is_promotion, hkc, Move.FLAG_KING_CASTLE, Move.FLAG_PROMO_KNIGHT]
  have hdp : mv.is_double_push = false := by
    simp [Move.is_double_push, hkc, Move.FLAG_KING_CASTLE, Move.FLAG_DOUBLE_PUSH]
  have hfx : mv.from_sq % 8 < 8 := Nat.mod_lt _ (by norm_num)
  have hfy : mv.from_sq / 8 < 8 := by have := mv.from_sq_lt; omega
  have htx : mv.to_sq % 8 < 8 := Nat.mod_lt _ (by norm_num)
  have hty : mv.to_sq / 8 < 8 := by have := mv.to_sq_lt; omega
  have hto6 : b.squares (mv.from_sq / 8) 6 = none := by
    rw [hfyty]
    rw [← htx6]
    exact hto
  have hfrom4 : b.squares (mv.from_sq / 8) 4 = some piece := by
    rw [← hfx4]
    exact hfrom
  have hne2 : ¬(mv.to_sq / 8 = mv.from_sq / 8 ∧ mv.to_sq % 8 = mv.from_sq % 8) := by
    omega
  simp only [make_move_fast, get_index]
  rw [hfrom]
  simp only [hnep, Bool.false_eq_true, if_false]
  rw [hto]
  simp only []
  rw [make_move_fast_rest_eq]
  simp only [Option.some_bind]
  rw [mv.promotion_piece_none hnpr]
  rw [rest_pre_castle_king b mv color piece none hiscas hkc hdp]
  simp only [get_index, record_pre_squares]
  simp only [unmake_move_fast, get_index, set_index_squares, record_pre_squares]
  rw [if_neg hne2]
  simp only [and_self, if_true, hnpr, Bool.false_eq_true, if_false]
  have hnc : ({ mv := mv, captured := UndoState.NO_CAPTURE, captured_sq := mv.to_sq, prev_ep := (match b.en_passant with | some (x, y) => y * 8 + x | none => UndoState.NO_EP), prev_castling := b.pack_castling, prev_hash := b.hash } : UndoState).has_capture = false := rfl
  rw [hnc]
  simp only [Bool.false_eq_true, if_false, hiscas, if_true, hkc,
    Move.FLAG_KING_CASTLE, Move.FLAG_QUEEN_CASTLE]
  have hcA : ¬(mv.from_sq / 8 = mv.to_sq / 8 ∧ (5 : Nat) = mv.to_sq % 8) := by
    omega
  have hcB : ¬(mv.from_sq / 8 = mv.from_sq / 8 ∧ (5 : Nat) = mv.from_sq % 8) := by
    omega
  (try simp only [if_neg hcA, if_neg hcB])
  refine congrArg some (unmake_tail_eq b _ _ b.pack_castling b.hash ?_ ?_ hcons
    ?_ ?_ (prev_ep_decode b.en_passant _ rfl hepr) rfl rfl)
  · funext y' x'
    simp only [set_index_squares, record_pre_squares]
    by_cases hA : y' = mv.from_sq / 8 ∧ x' = 5
    · rw [if_pos hA]
      obtain ⟨rfl, rfl⟩ := hA
      exact hr5.symm
    · simp only [if_neg hA]
      by_cases hB : y' = mv.from_sq / 8 ∧ x' = 7
      · rw [if_pos hB]
        obtain ⟨rfl, rfl⟩ := hB
        have k1 : ¬(True ∧ (5 : Nat) = mv.from_sq % 8) := by
          rw [true_and]
          omega
        have k2 : ¬(True ∧ (5 : Nat) = 7) := by
          rw [true_and]
          omega
        rw [if_neg hcA, if_neg k1, if_neg k1, if_neg hcA, if_neg k2,
          if_pos (show True ∧ True from ⟨trivial, trivial⟩)]
      · simp only [if_neg hB]
        by_cases hC : y' = mv.to_sq / 8 ∧ x' = mv.to_sq % 8
        · rw [if_pos hC]
          obtain ⟨rfl, rfl⟩ := hC
          exact hto.symm
        · simp only [if_neg hC]
          by_cases hD : y' = mv.from_sq / 8 ∧ x' = mv.from_sq % 8
          · rw [if_pos hD]
            obtain ⟨rfl, rfl⟩ := hD
            exact hfrom.symm
          · simp only [if_neg hD]
  · exact consistent_set_index _ _ _ _ (by norm_num) hfy
      (consistent_set_index _ _ _ _ (by norm_num) hfy
        (consistent_set_index _ _ _ _ htx hty
          (consistent_set_index _ _ _ _ hfx hfy
            (consistent_set_index _ _ _ _ hfx hfy
              (consistent_set_index _ _ _ _ htx hty
                (consistent_set_index _ _ _ _ (by norm_num) hfy
                  (consistent_set_index _ _ _ _ (by norm_num) hfy
                    (consistent_of_eq _ _
                      (record_pre_squares b mv color piece none)
                      (record_pre_bitboards b mv color piece none) hcons))))))))
  · intro c p h
    repeat rw [set_index_bitboards_out _ _ _ _ _ _ h]
    rw [record_pre_bitboards]
  · intro i j hij
    simp only [set_index_castling]
    exact record_pre_castling_out b mv color piece none i j hij

end Board

namespace Board

/-- Round trip for queen-side castling. -/
theorem roundtrip_castle_queen (b : Board) (mv : Move) (color : Color)
    (piece : Piece)
    (hcons : b.Consistent)
    (hepr : ∀ x y, b.en_passant = some (x, y) → x < 8 ∧ y < 8)
    (hqc : mv.flags = Move.FLAG_QUEEN_CASTLE)
    (hfrom : b.squares (mv.from_sq / 8) (mv.from_sq % 8) = some piece)
    (hfx4 : mv.from_sq % 8 = 4) (htx2 : mv.to_sq % 8 = 2)
    (hfyty : mv.from_sq / 8 = mv.to_sq / 8)
    (hto : b.squares (mv.to_sq / 8) (mv.to_sq % 8) = none)
    (hr3 : b.squares (mv.from_sq / 8) 3 = none) :
    (b.make_move_fast mv color).bind
      (fun r => r.1.unmake_move_fast r.2 color) = some b := by
  have hiscas : mv.is_castle = true := by
    simp [Move.is_castle, hqc, Move.FLAG_KING_CASTLE, Move.FLAG_QUEEN_CASTLE]
  have hnep : mv.is_ep = false := by
    simp [Move.is_ep, hqc, Move.FLAG_QUEEN_CASTLE, Move.FLAG_EP_CAPTURE]
  have hnpr : mv.is_promotion = false := by
    simp [Move.is_promotion, hqc, Move.FLAG_QUEEN_CASTLE, Move.FLAG_PROMO_KNIGHT]
  have hdp : mv.is_double_push = false := by
    simp [Move.is_double_push, hqc, Move.FLAG_QUEEN_CASTLE, Move.FLAG_DOUBLE_PUSH]
  have hfx : mv.from_sq % 8 < 8 := Nat.mod_lt _ (by norm_num)
  have hfy : mv.from_sq / 8 < 8 := by have := mv.from_sq_lt; omega
  have htx : mv.to_sq % 8 < 8 := Nat.mod_lt _ (by norm_num)
  have hty : mv.to_sq / 8 < 8 := by have := mv.to_sq_lt; omega
  have hne2 : ¬(mv.to_sq / 8 = mv.from_sq / 8 ∧ mv.to_sq % 8 = mv.from_sq % 8) := by
    omega
  simp only [make_move_fast, get_index]
  rw [hfrom]
  simp only [hnep, Bool.false_eq_true, if_false]
  rw [hto]
  simp only []
  rw [make_move_fast_rest_eq]
  simp only [Option.some_bind]
  rw [mv.promotion_piece_none hnpr]
  rw [rest_pre_castle_queen b mv color piece none hiscas hqc hdp]
  simp only [get_index, record_pre_squares]
  simp only [unmake_move_fast, get_index, set_index_squares, record_pre_squares]
  rw [if_neg hne2]
  simp only [and_self, if_true, hnpr, Bool.false_eq_true, if_false]
  have hnc : ({ mv := mv, captured := UndoState.NO_CAPTURE, captured_sq := mv.to_sq, prev_ep := (match b.en_passant with | some (x, y) => y * 8 + x | none => UndoState.NO_EP), prev_castling := b.pack_castling, prev_hash := b.hash } : UndoState).has_capture = false := rfl
  rw [hnc]
  simp only [Bool.false_eq_true, if_false, hiscas, if_true, hqc,
    Move.FLAG_KING_CASTLE, Move.FLAG_QUEEN_CASTLE]
  rw [if_neg (show (3 : Nat) ≠ 2 by decide)]
  have hcA : ¬(mv.from_sq / 8 = mv.to_sq / 8 ∧ (3 : Nat) = mv.to_sq % 8) := by
    omega
  have hcB : ¬(mv.from_sq / 8 = mv.from_sq / 8 ∧ (3 : Nat) = mv.from_sq % 8) := by
    omega
  (try simp only [if_neg hcA, if_neg hcB])
  refine congrArg some (unmake_tail_eq b _ _ b.pack_castling b.hash ?_ ?_ hcons
    ?_ ?_ (prev_ep_decode b.en_passant _ rfl hepr) rfl rfl)
  · funext y' x'
    simp only [set_index_squares, record_pre_squares]
    by_cases hA : y' = mv.from_sq / 8 ∧ x' = 3
    · rw [if_pos hA]
      obtain ⟨rfl, rfl⟩ := hA
      exact hr3.symm
    · simp only [if_neg hA]
      by_cases hB : y' = mv.from_sq / 8 ∧ x' = 0
      · rw [if_pos hB]
        obtain ⟨rfl, rfl⟩ := hB
        have k1 : ¬(True ∧ (3 : Nat) = mv.from_sq % 8) := by
          rw [true_and]
          omega
        have k2 : ¬(True ∧ (3 : Nat) = 0) := by
          rw [true_and]
          omega
        rw [if_neg hcA, if_neg k1, if_neg k1, if_neg hcA, if_neg k2,
          if_pos (show True ∧ True from ⟨trivial, trivial⟩)]
      · simp only [if_neg hB]
        by_cases hC : y' = mv.to_sq / 8 ∧ x' = mv.to_sq % 8
        · rw [if_pos hC]
          obtain ⟨rfl, rfl⟩ := hC
          exact hto.symm
        · simp only [if_neg hC]
          by_cases hD : y' = mv.from_sq / 8 ∧ x' = mv.from_sq % 8
          · rw [if_pos hD]
            obtain ⟨rfl, rfl⟩ := hD
            exact hfrom.symm
          · simp only [if_neg hD]
  · exact consistent_set_index _ _ _ _ (by norm_num) hfy
      (consistent_set_index _ _ _ _ (by norm_num) hfy
        (consistent_set_index _ _ _ _ htx hty
          (consistent_set_index _ _ _ _ hfx hfy
            (consistent_set_index _ _ _ _ hfx hfy
              (consistent_set_index _ _ _ _ htx hty
                (consistent_set_index _ _ _ _ (by norm_num) hfy
                  (consistent_set_index _ _ _ _ (by norm_num) hfy
                    (consistent_of_eq _ _
                      (record_pre_squares b mv color piece none)
                      (record_pre_bitboards b mv color piece none) hcons))))))))
  · intro c p h
    repeat rw [set_index_bitboards_out _ _ _ _ _ _ h]
    rw [record_pre_bitboards]
  · intro i j hij
    simp only [set_index_castling]
    exact record_pre_castling_out b mv color piece none i j hij

end Board

namespace Board

/-- The en-passant target, if set, is on the board. -/
def epRange (b : Board) : Bool :=
  match b.en_passant with
  | some (x, y) => decide (x < 8) && decide (y < 8)
  | none => true

/-- Structural legality of a move for the side to move: the from-square
holds an own piece (a pawn if the move promotes), source and target
differ, any piece on the target is an enemy, and the en-passant and
castling flags come with their defining geometry (all of which hold of
every legal move the engine generates). -/
def LegalShape (b : Board) (mv : Move) (color : Color) : Prop :=
  ((b.squares (mv.from_sq / 8) (mv.from_sq % 8)).any (fun q =>
      q.color == color &&
      (!mv.is_promotion || q.piece_type == PieceType.Pawn)) = true) ∧
  ¬(mv.from_sq / 8 = mv.to_sq / 8 ∧ mv.from_sq % 8 = mv.to_sq % 8) ∧
  ((b.squares (mv.to_sq / 8) (mv.to_sq % 8)).all (fun q =>
      q.color == opposite color) = true) ∧
  (mv.is_ep = true →
    b.squares (mv.to_sq / 8) (mv.to_sq % 8) = none ∧
    mv.from_sq % 8 ≠ mv.to_sq % 8 ∧
    (color = Color.White → 1 ≤ mv.to_sq / 8) ∧
    (color = Color.Black → mv.to_sq / 8 ≤ 6) ∧
    ((b.squares (if color = Color.White then mv.to_sq / 8 - 1
                 else mv.to_sq / 8 + 1) (mv.to_sq % 8)).any (fun q =>
        q.color == opposite color) = true)) ∧
  (mv.is_castle = true →
    mv.from_sq % 8 = 4 ∧ mv.from_sq / 8 = mv.to_sq / 8 ∧
    b.squares (mv.to_sq / 8) (mv.to_sq % 8) = none ∧
    (mv.flags = Move.FLAG_KING_CASTLE →
      mv.to_sq % 8 = 6 ∧ b.squares (mv.from_sq / 8) 5 = none) ∧
    (mv.flags = Move.FLAG_QUEEN_CASTLE →
      mv.to_sq % 8 = 2 ∧ b.squares (mv.from_sq / 8) 3 = none))

instance (b : Board) (mv : Move) (color : Color) :
    Decidable (b.LegalShape mv color) := by
  unfold LegalShape
  infer_instance

end Board

/-- **C1.**  For every consistent board (with its en-passant target, if
any, on the board) and every move of legal shape for the side to move,
`make_move_fast` followed by `unmake_move_fast` on the returned undo
state restores the board exactly: squares, bitboards, castling rights,
en-passant target and Zobrist hash are bit-for-bit the pre-move values. -/
theorem make_unmake_fast_roundtrip (b : Board) (mv : Move) (color : Color)
    (hcons : b.Consistent) (hepb : b.epRange = true)
    (hls : b.LegalShape mv color) :
    (b.make_move_fast mv color).bind
      (fun r => r.1.unmake_move_fast r.2 color) = some b := by
  have hepr : ∀ x y, b.en_passant = some (x, y) → x < 8 ∧ y < 8 := by
    intro x y h
    unfold Board.epRange at hepb
    rw [h] at hepb
    simpa using hepb
  obtain ⟨hfromB, hne, hcapB, hepC, hcasC⟩ := hls
  cases hsq : b.squares (mv.from_sq / 8) (mv.from_sq % 8) with
  | none =>
    rw [hsq] at hfromB
    simp [Option.any] at hfromB
  | some piece =>
    rw [hsq] at hfromB
    simp only [Option.any, Bool.and_eq_true, beq_iff_eq] at hfromB
    obtain ⟨hcol, hpromoB⟩ := hfromB
    have hpromo : mv.is_promotion = true → piece.piece_type = PieceType.Pawn := by
      intro h
      rw [h] at hpromoB
      simpa using hpromoB
    have hcap : ∀ q, b.squares (mv.to_sq / 8) (mv.to_sq % 8) = some q →
        q.color = opposite color := by
      intro q hq
      rw [hq] at hcapB
      simpa [Option.all] using hcapB
    by_cases hcas : mv.is_castle = true
    · obtain ⟨hfx4, hfyty, hto, hkci, hqci⟩ := hcasC hcas
      have hflag : mv.flags = Move.FLAG_KING_CASTLE ∨
          mv.flags = Move.FLAG_QUEEN_CASTLE := by
        have h := hcas
        unfold Move.is_castle at h
        simpa using h
      cases hflag with
      | inl hk =>
        obtain ⟨htx6, hr5⟩ := hkci hk
        exact Board.roundtrip_castle_king b mv color piece hcons hepr hk hsq
          hfx4 htx6 hfyty hto hr5
      | inr hq =>
        obtain ⟨htx2, hr3⟩ := hqci hq
        exact Board.roundtrip_castle_queen b mv color piece hcons hepr hq hsq
          hfx4 htx2 hfyty hto hr3
    · have hcas' : mv.is_castle = false := by
        simpa using hcas
      by_cases hep : mv.is_ep = true
      · obtain ⟨hto, hfxne, hwy, hby, hcapE⟩ := hepC hep
        cases hcq : b.squares (if color = Color.White then mv.to_sq / 8 - 1
            else mv.to_sq / 8 + 1) (mv.to_sq % 8) with
        | none =>
          rw [hcq] at hcapE
          simp [Option.any] at hcapE
        | some cap =>
          rw [hcq] at hcapE
          have hcc : cap.color = opposite color := by
            simpa [Option.any] using hcapE
          exact Board.roundtrip_ep b mv color piece cap hcons hepr hep hsq hto
            hfxne hwy hby hcq hcc
      · have hep' : mv.is_ep = false := by
          simpa using hep
        exact Board.roundtrip_plain b mv color piece hcons hepr hep' hcas' hsq
          hcol hpromo hne hcap

/-- Witness for C1: the double push e2–e4 on the standard starting
position round-trips, and the hypotheses hold there. -/
theorem make_unmake_fast_roundtrip_witness :
    standardBoard.Consistent ∧ standardBoard.epRange = true ∧
    standardBoard.LegalShape (Move.new 12 28 Move.FLAG_DOUBLE_PUSH)
      Color.White ∧
    (standardBoard.make_move_fast (Move.new 12 28 Move.FLAG_DOUBLE_PUSH)
        Color.White).bind
      (fun r => r.1.unmake_move_fast r.2 Color.White) = some standardBoard :=
  ⟨by decide, by decide, by decide,
   make_unmake_fast_roundtrip standardBoard
     (Move.new 12 28 Move.FLAG_DOUBLE_PUSH) Color.White
     (by decide) (by decide) (by decide)⟩

/-! ## engine.rs: piece values, the engine state and the search helpers -/

/-- `types.rs::PieceValues::VALUES`. -/
def PIECE_VALUES : List Int := [100, 320, 330, 500, 900, 20000]

/-- `engine.rs::Engine::piece_value` (via `PieceValues::value`). -/
def piece_value (t : PieceType) : Int :=
  match t with
  | .Pawn => 100
  | .Knight => 320
  | .Bishop => 330
  | .Rook => 500
  | .Queen => 900
  | .King => 20000

/-- `types.rs::PieceValues::value_by_idx`. -/
def value_by_idx (idx : Nat) : Int := PIECE_VALUES.getD idx 0

/-- `types.rs::MVV_LVA[victim][attacker] = values[victim]*10 - values[attacker]`
with `values = [100, 320, 330, 500, 900, 20000]`. -/
def mvv_lva_score (victim attacker : Nat) : Int :=
  PIECE_VALUES.getD victim 0 * 10 - PIECE_VALUES.getD attacker 0

/-- `engine.rs` search constants. -/
def MATE_VALUE : Int := 10000
def MAX_DEPTH : Nat := 64
def RFP_MARGIN : List Int := [0, 150, 250, 350]
def HLP_THRESHOLD : Nat := 3
def HLP_BASE : Int := -50
def LMP_LIMITS : List Nat := [0, 5, 7, 10, 14]

/-- `engine.rs::Engine`: the mutable search state threaded through the
search.  The syzygy tablebase (`tb`) and the time manager are modelled as
absent (`None`), which is their state unless a tablebase path or a timed
search is configured; `stop_flag` is the atomic flag's value. -/
structure Engine where
  tt : Table
  killers : List (Option Move × Option Move)
  quiet_history : Nat → Nat → Int
  capture_history : Nat → Nat → Int
  cont_history : Nat × Nat → Int
  search_history : List Nat
  stop_flag : Bool

namespace Engine

/-- `Engine::should_stop` with no time manager: just the stop flag. -/
def should_stop (e : Engine) : Bool := e.stop_flag

end Engine

/-- `Engine::string_to_move`.  `none` models the panics of the four
`unwrap`s (bad squares or an empty from-square). -/
def string_to_move (b : Board) (s e : String) : Option Move :=
  match Board.algebraic_to_index s, Board.algebraic_to_index e with
  | some (sx, sy), some (ex, ey) =>
    match b.get_index sx sy with
    | none => none
    | some piece =>
      let f := sy * 8 + sx
      let t := ey * 8 + ex
      let captured := b.get_index ex ey
      let is_capture := captured.isSome
      let flags := Move.FLAG_NORMAL
      let flags :=
        match piece.piece_type with
        | .Pawn =>
          let diff_y := ((ey : Int) - (sy : Int)).natAbs
          let diff_x := ((ex : Int) - (sx : Int)).natAbs
          if ey = 0 ∨ ey = 7 then
            if is_capture then Move.FLAG_PROMO_QUEEN_CAP else Move.FLAG_PROMO_QUEEN
          else if diff_y = 2 ∧ diff_x = 0 then Move.FLAG_DOUBLE_PUSH
          else if diff_x ≠ 0 ∧ is_capture = false then Move.FLAG_EP_CAPTURE
          else if is_capture then Move.FLAG_CAPTURE
          else flags
        | .King =>
          let diff_x := ((ex : Int) - (sx : Int)).natAbs
          if diff_x = 2 then
            if ex > sx then Move.FLAG_KING_CASTLE else Move.FLAG_QUEEN_CASTLE
          else if is_capture then Move.FLAG_CAPTURE
          else flags
        | _ => if is_capture then Move.FLAG_CAPTURE else flags
      some (Move.new f t flags)
  | _, _ => none

/-- `Engine::cheapest_attacker`, with the board threaded through the
`is_legal` trials (`&mut Board`). -/
def cheapest_attacker (b : Board) (color : Color) (tx ty : Nat) :
    Option ((Nat × Nat) × Piece) × Board :=
  match Board.index_to_algebraic tx ty with
  | none => (none, b)
  | some target =>
    (List.range 8).foldl (fun accy y =>
      (List.range 8).foldl
        (fun (acc : Option ((Nat × Nat) × Piece) × Board) x =>
          let best := acc.1
          let bcur := acc.2
          match bcur.get_index x y with
          | some p =>
            if p.color = color then
              match Board.index_to_algebraic x y with
              | some from_s =>
                if (bcur.pseudo_legal_moves from_s).any (fun m => m = target) then
                  let trial := bcur.is_legal from_s target color
                  if trial.1 then
                    let better : Bool :=
                      match best with
                      | some bst => piece_value p.piece_type <
                          piece_value bst.2.piece_type
                      | none => true
                    if better then (some ((x, y), p), trial.2)
                    else (best, trial.2)
                  else (best, trial.2)
                else (best, bcur)
              | none => (best, bcur)
            else acc
          | none => acc) accy) (none, b)

/-- `Engine::see_rec`.  The recursion consumes one capture per step, so
33 units of fuel (more pieces than any position holds) make the fuelled
version agree with the source. -/
def see_rec : Nat → Board → Color → Nat → Nat → Int × Board
  | 0, b, _, _, _ => (0, b)
  | fuel + 1, b, color, tx, ty =>
    let ca := cheapest_attacker b color tx ty
    match ca.1 with
    | some ((sx, sy), _) =>
      let bc := ca.2
      let from_s := (Board.index_to_algebraic sx sy).getD ""
      let to_s := (Board.index_to_algebraic tx ty).getD ""
      let ms := bc.make_move_state from_s to_s
      match ms.1 with
      | some state =>
        let captured_val :=
          match state.captured with
          | some p => piece_value p.piece_type
          | none => 0
        let rec_res := see_rec fuel ms.2 (opposite color) tx ty
        let gain := captured_val - rec_res.1
        let bafter := rec_res.2.unmake_move state
        (max gain 0, bafter)
      | none => (0, ms.2)
    | none => (0, ca.2)

/-- `Engine::static_exchange_eval`.  The board is cloned, so this is pure;
`none` models the panics inside `make_move_fast` on the clone. -/
def static_exchange_eval (b : Board) (mv : Move) : Option Int :=
  let sx := mv.from_sq % 8
  let sy := mv.from_sq / 8
  let ex := mv.to_sq % 8
  let ey := mv.to_sq / 8
  match b.get_index sx sy with
  | none => some 0
  | some piece =>
    let color := piece.color
    match b.make_move_fast mv color with
    | none => none
    | some (b2, undo) =>
      let captured_val :=
        if undo.has_capture then value_by_idx undo.captured else 0
      let r := see_rec 33 b2 (opposite color) ex ey
      some (captured_val - r.1)

/-- `Engine::move_score`. -/
def move_score (e : Engine) (b : Board) (mv : Move) (ply : Nat)
    (prev : Option Move) : Option Int :=
  let capture := mv.is_capture
  let f := mv.from_sq
  let t := mv.to_sq
  let contrib : Int :=
    match prev with
    | some pmv => e.cont_history (pmv.bits, mv.bits)
    | none => 0
  if capture then
    let score := e.capture_history f t
    let victim_idx :=
      if mv.is_ep then 0
      else b.piece_type_idx_at (t / 8 * 8 + t % 8)
    let attacker_idx := b.piece_type_idx_at f
    let score :=
      if victim_idx < 6 ∧ attacker_idx < 6 then
        score + mvv_lva_score victim_idx attacker_idx * 100
      else score
    match static_exchange_eval b mv with
    | none => none
    | some see =>
      let score := if see < 0 then score - 1000 else score
      some (score + contrib)
  else
    let score := e.quiet_history f t
    let score :=
      match e.killers.get? ply with
      | some k =>
        let score :=
          if (match k.1 with | some m => m.bits == mv.bits | none => false) then
            score + 10000
          else score
        if (match k.2 with | some m => m.bits == mv.bits | none => false) then
          score + 9000
        else score
      | none => score
    some (score + contrib)

/-- Stable descending insertion by score (the behaviour of Rust's stable
`sort_by` with comparator `score_b.cmp(&score_a)`). -/
def insertDesc (p : Move × Int) : List (Move × Int) → List (Move × Int)
  | [] => [p]
  | q :: rest => if q.2 > p.2 then q :: insertDesc p rest else p :: q :: rest

def sortDesc : List (Move × Int) → List (Move × Int)
  | [] => []
  | p :: rest => insertDesc p (sortDesc rest)

/-- The capture loop of `Engine::quiescence`; `recQ` is the recursive
call at the next fuel level. -/
def quiesLoop (recQ : Board → Color → Int → Int → Nat → Option (Int × Board))
    (e : Engine) (color : Color) (beta : Int) (ply : Nat) :
    List Move → Int → Board → Option (Int × Board)
  | [], alpha, b => some (alpha, b)
  | m :: rest, alpha, b =>
    match static_exchange_eval b m with
    | none => none
    | some see =>
      if see < 0 then quiesLoop recQ e color beta ply rest alpha b
      else
        match b.make_move_fast m color with
        | none => none
        | some (b1, undo) =>
          match recQ b1 (opposite color) (-beta) (-alpha) (ply + 1) with
          | none => none
          | some (s, b2) =>
            let score := -s
            match b2.unmake_move_fast undo color with
            | none => none
            | some b3 =>
              if e.stop_flag then some (0, b3)
              else if score ≥ beta then some (beta, b3)
              else quiesLoop recQ e color beta ply rest
                (if score > alpha then score else alpha) b3

/-- `Engine::quiescence` (fuelled; `none` is fuel exhaustion or a panic).
Move scores are computed once per move rather than inside the sort
comparator; `move_score` is pure, so the sorted order is the same. -/
def quiescence : Nat → Engine → Board → Color → Int → Int → Nat →
    Option (Int × Board)
  | 0, _, _, _, _, _, _ => none
  | fuel + 1, e, b, color, alpha, beta, ply =>
    if e.should_stop then some (0, b)
    else
      let stand_pat := evaluate b color
      if stand_pat ≥ beta then some (beta, b)
      else
        let alpha := if stand_pat > alpha then stand_pat else alpha
        if stand_pat + 1000 < alpha then some (alpha, b)
        else
          let gen := generate_moves_fast b color
          let b1 := gen.2
          let capt := gen.1.filter (fun m => m.is_capture)
          match capt.mapM (fun m => move_score e b1 m ply none) with
          | none => none
          | some scores =>
            let sorted := sortDesc (capt.zip scores)
            quiesLoop (quiescence fuel e) e color beta ply
              (sorted.map Prod.fst) alpha b1

/-- Swap the adjacent elements at positions `j` and `j+1`. -/
def swapAdj {α : Type} : List α → Nat → List α
  | x :: y :: rest, 0 => y :: x :: rest
  | x :: rest, n + 1 => x :: swapAdj rest n
  | l, _ => l

/-- One outer iteration of the bubble sort in `Engine::pvs` (scores and
moves are swapped together, here as pairs). -/
def bubblePass (l : List (Int × Move)) (len i : Nat) : List (Int × Move) :=
  (List.range (len - 1 - i)).foldl (fun st j =>
    let sj := st.getD j (0, ⟨0⟩)
    let sj1 := st.getD (j + 1) (0, ⟨0⟩)
    if sj.1 < sj1.1 then swapAdj st j else st) l

/-- The bubble sort in `Engine::pvs`. -/
def bubbleSortPairs (l : List (Int × Move)) : List (Int × Move) :=
  let len := l.length
  (List.range len).foldl (fun st i => bubblePass st len i) l

/-- The killer update on a beta cutoff in `Engine::pvs`. -/
def killerUpdate (ks : List (Option Move × Option Move)) (ply : Nat)
    (m : Move) : List (Option Move × Option Move) :=
  let ks :=
    if ks.length ≤ ply then ks ++ List.replicate (ply + 1 - ks.length) (none, none)
    else ks
  match ks.get? ply with
  | some k => if k.1 = some m then ks else ks.set ply (some m, k.1)
  | none => ks

/-- The tail of one `Engine::pvs` loop iteration once the child score is
known: unmake, stop check, beta cutoff with killer/history/TT updates, or
history penalty and the alpha update; `next` continues the loop. -/
def pvsMoveTail (color : Color) (depth : Nat) (beta : Int) (ply : Nat)
    (prev : Option Move) (hash : Nat) (m : Move) (capture : Bool)
    (alpha : Int) (best : Option Move) (undo : UndoState)
    (next : Int → Option Move → Engine → Board →
      Option (Bool × Int × Option Move × Engine × Board))
    (score : Int) (e : Engine) (b2 : Board) :
    Option (Bool × Int × Option Move × Engine × Board) :=
  match b2.unmake_move_fast undo color with
  | none => none
  | some b3 =>
    if e.stop_flag then some (true, 0, best, e, b3)
    else
      let f := m.from_sq
      let t := m.to_sq
      if score ≥ beta then
        let e := if capture = false then
            { e with killers := killerUpdate e.killers ply m }
          else e
        let bonus : Int := (depth * depth : Nat)
        let e :=
          if capture then
            { e with capture_history := fun a b' =>
                if a = f ∧ b' = t then e.capture_history a b' + bonus
                else e.capture_history a b' }
          else
            { e with quiet_history := fun a b' =>
                if a = f ∧ b' = t then e.quiet_history a b' + bonus
                else e.quiet_history a b' }
        let e :=
          match prev with
          | some pmv =>
            { e with cont_history := fun k =>
                if k = (pmv.bits, m.bits) then e.cont_history k + bonus
                else e.cont_history k }
          | none => e
        let newEntry : TTEntry :=
          { depth := depth, value := beta, bound := .Lower,
            best := some (f, t) }
        let e := { e with tt := e.tt.store hash newEntry }
        some (true, beta, best, e, b3)
      else
        let penalty : Int := (depth * depth : Nat)
        let e :=
          if capture then
            { e with capture_history := fun a b' =>
                if a = f ∧ b' = t then e.capture_history a b' - penalty
                else e.capture_history a b' }
          else
            { e with quiet_history := fun a b' =>
                if a = f ∧ b' = t then e.quiet_history a b' - penalty
                else e.quiet_history a b' }
        if score > alpha then next score (some m) e b3
        else next alpha best e b3

/-- The move loop of `Engine::pvs`; `recP` is the recursive search call
at the next fuel level. -/
def pvsLoop (recP : Engine → Board → Color → Nat → Int → Int → Nat →
      Option Move → Bool → Option (Int × Engine × Board))
    (lmr : Nat → Nat → Nat) (color : Color) (depth : Nat) (beta : Int)
    (ply : Nat) (prev : Option Move) (in_check : Bool) (hash : Nat) :
    List Move → Nat → Int → Option Move → Bool → Engine → Board →
    Option (Bool × Int × Option Move × Engine × Board)
  | [], _, alpha, best, _, e, b => some (false, alpha, best, e, b)
  | m :: rest, idx, alpha, best, skip_quiets, e, b =>
    let capture := m.is_capture
    if in_check = false ∧ capture = false ∧ depth ≤ 4 ∧
        idx ≥ LMP_LIMITS.getD depth 0 then
      pvsLoop recP lmr color depth beta ply prev in_check hash rest (idx + 1)
        alpha best skip_quiets e b
    else if skip_quiets = true ∧ capture = false then
      pvsLoop recP lmr color depth beta ply prev in_check hash rest (idx + 1)
        alpha best skip_quiets e b
    else
      let hlp : Option Bool :=
        if in_check = false ∧ capture = false ∧ depth ≤ HLP_THRESHOLD ∧
            idx > 0 then
          match move_score e b m ply prev with
          | none => none
          | some s => some (s < HLP_BASE)
        else some false
      match hlp with
      | none => none
      | some true =>
        pvsLoop recP lmr color depth beta ply prev in_check hash rest (idx + 1)
          alpha best true e b
      | some false =>
        match b.make_move_fast m color with
        | none => none
        | some (b1, undo) =>
          let gives_check := b1.in_check_fast (opposite color)
          let new_depth := depth - 1
          let new_depth :=
            if gives_check = true ∧ depth < MAX_DEPTH - 1 then new_depth + 1
            else new_depth
          let new_depth :=
            if depth > 2 ∧ capture = false ∧ in_check = false ∧
                gives_check = false ∧ idx ≥ 3 then
              new_depth - lmr depth (idx + 1)
            else new_depth
          let next := fun (alpha' : Int) (best' : Option Move) (e' : Engine)
              (b' : Board) =>
            pvsLoop recP lmr color depth beta ply prev in_check hash rest
              (idx + 1) alpha' best' skip_quiets e' b'
          if idx = 0 then
            match recP e b1 (opposite color) new_depth (-beta) (-alpha)
                (ply + 1) (some m) true with
            | none => none
            | some (s, e1, b2) =>
              pvsMoveTail color depth beta ply prev hash m capture alpha best
                undo next (-s) e1 b2
          else
            match recP e b1 (opposite color) new_depth (-alpha - 1) (-alpha)
                (ply + 1) (some m) true with
            | none => none
            | some (s, e1, b2) =>
              let score := -s
              if score > alpha ∧ score < beta then
                match recP e1 b2 (opposite color) new_depth (-beta) (-alpha)
                    (ply + 1) (some m) true with
                | none => none
                | some (s2, e2, b3) =>
                  pvsMoveTail color depth beta ply prev hash m capture alpha
                    best undo next (-s2) e2 b3
              else
                pvsMoveTail color depth beta ply prev hash m capture alpha
                  best undo next score e1 b2

/-- The move-generation stage of `Engine::pvs`: generate legal moves,
handle checkmate/stalemate on an empty list, score and bubble-sort the
moves, run the loop and store the final entry. -/
def pvsGen (recP : Engine → Board → Color → Nat → Int → Int → Nat →
      Option Move → Bool → Option (Int × Engine × Board))
    (lmr : Nat → Nat → Nat) (e : Engine) (b : Board) (color : Color)
    (depth : Nat) (alpha beta : Int) (ply : Nat) (prev : Option Move)
    (in_check : Bool) (hash : Nat) (alpha_orig : Int)
    (tt_best : Option Move) : Option (Int × Engine × Board) :=
  let gen := generate_moves_fast b color
  let moves := gen.1
  let b1 := gen.2
  if moves.length = 0 then
    if in_check then some (-MATE_VALUE + (ply : Int), e, b1)
    else some (0, e, b1)
  else
    match moves.mapM (fun m => move_score e b1 m ply prev) with
    | none => none
    | some scores0 =>
      let scores :=
        match tt_best with
        | some ttm =>
          (moves.zip scores0).map
            (fun (p : Move × Int) =>
              if p.1.bits = ttm.bits then (1000000 : Int) else p.2)
        | none => scores0
      let sorted := bubbleSortPairs (scores.zip moves)
      match pvsLoop recP lmr color depth beta ply prev in_check hash
          (sorted.map Prod.snd) 0 alpha none false e b1 with
      | none => none
      | some (early, value, best, e2, b2) =>
        if early then some (value, e2, b2)
        else
          let bound := if value ≤ alpha_orig then Bound.Upper else Bound.Exact
          let newEntry : TTEntry :=
            { depth := depth, value := value, bound := bound,
              best := best.map (fun m => (m.from_sq, m.to_sq)) }
          let e3 := { e2 with tt := e2.tt.store hash newEntry }
          some (value, e3, b2)

/-- `Engine::pvs` after the transposition-table block: the (absent)
tablebase probe, the quiescence leaf, reverse futility pruning, the null
move, and the move-generation stage. -/
def pvsMain (recP : Engine → Board → Color → Nat → Int → Int → Nat →
      Option Move → Bool → Option (Int × Engine × Board))
    (quies : Engine → Board → Color → Int → Int → Nat → Option (Int × Board))
    (lmr : Nat → Nat → Nat) (e : Engine) (b : Board) (color : Color)
    (depth : Nat) (alpha beta : Int) (ply : Nat) (prev : Option Move)
    (hash : Nat) (alpha_orig : Int) (tt_best : Option Move) :
    Option (Int × Engine × Board) :=
  if depth = 0 then
    match quies e b color alpha beta ply with
    | none => none
    | some (v, b1) => some (v, e, b1)
  else
    let in_check := b.in_check color
    let rfp : Option Int :=
      if depth ≤ 3 ∧ in_check = false then
        let eval := evaluate b color
        if eval - RFP_MARGIN.getD depth 0 ≥ beta then some eval else none
      else none
    match rfp with
    | some v => some (v, e, b)
    | none =>
      let can_null := in_check = false ∧ b.piece_count_total color > 3 ∧
        depth ≥ 3
      if can_null then
        let r := if depth > 6 then 3 else 2
        let ep := b.en_passant
        let bN := { b with en_passant := none }
        match recP e bN (opposite color) (depth - 1 - r) (-beta) (-beta + 1)
            (ply + 1) none false with
        | none => none
        | some (s, e1, b1) =>
          let score := -s
          let b2 := { b1 with en_passant := ep }
          if e1.stop_flag then some (0, e1, b2)
          else if score ≥ beta then
            if depth > 8 then
              match recP e1 b2 color (depth - r - 1) (beta - 1) beta ply prev
                  false with
              | none => none
              | some (v2, e2, b3) =>
                if v2 ≥ beta then some (beta, e2, b3)
                else pvsGen recP lmr e2 b3 color depth alpha beta ply prev
                  in_check hash alpha_orig tt_best
            else some (beta, e1, b2)
          else pvsGen recP lmr e1 b2 color depth alpha beta ply prev in_check
            hash alpha_orig tt_best
      else pvsGen recP lmr e b color depth alpha beta ply prev in_check hash
        alpha_orig tt_best

/-- `Engine::pvs` (fuelled; `none` is fuel exhaustion or a panic).  The
late-move-reduction amount is a function parameter (`Engine::lmr_value`
is real-valued); the tablebase probe is absent (`tb = None`). -/
def pvs : Nat → (Nat → Nat → Nat) → Engine → Board → Color → Nat → Int →
    Int → Nat → Option Move → Bool → Option (Int × Engine × Board)
  | 0, _, _, _, _, _, _, _, _, _, _ => none
  | fuel + 1, lmr, e, b, color, depth, alpha, beta, ply, prev, _use_iir =>
    if e.should_stop then some (0, e, b)
    else
      let current_hash := b.side_hash color
      if ply > 0 ∧ e.search_history.contains current_hash then some (0, e, b)
      else
        let mate_max : Int := MATE_VALUE - (ply : Int)
        let beta := if beta > mate_max then mate_max else beta
        let mate_min := -mate_max
        let alpha := if alpha < mate_min then mate_min else alpha
        if alpha ≥ beta then some (alpha, e, b)
        else
          let alpha_orig := alpha
          let hash := b.side_hash color
          let ttRes : Option (Sum Int (Int × Option (Nat × Nat))) :=
            match e.tt.get hash with
            | some entry =>
              if entry.depth ≥ depth then
                match entry.bound with
                | .Exact => some (.inl entry.value)
                | .Lower =>
                  let alpha' := max alpha entry.value
                  if alpha' ≥ beta then some (.inl entry.value)
                  else some (.inr (alpha', entry.best))
                | .Upper =>
                  if alpha ≥ beta then some (.inl entry.value)
                  else some (.inr (alpha, entry.best))
              else some (.inr (alpha, entry.best))
            | none => some (.inr (alpha, none))
          match ttRes with
          | none => none
          | some (.inl v) => some (v, e, b)
          | some (.inr (alpha, bestc)) =>
            let ttb : Option (Option Move) :=
              match bestc with
              | some (fs, ts) =>
                match Board.index_to_algebraic (fs % 8) (fs / 8),
                    Board.index_to_algebraic (ts % 8) (ts / 8) with
                | some f_str, some t_str =>
                  match string_to_move b f_str t_str with
                  | some mv => some (some mv)
                  | none => none
                | _, _ => none
              | none => some none
            match ttb with
            | none => none
            | some tt_best =>
              pvsMain (pvs fuel lmr) (quiescence fuel) lmr e b color depth
                alpha beta ply prev hash alpha_orig tt_best

/-- **C5.**  When the PVS search reaches move generation and the legal
move list for the side to move is empty, it returns `-MATE_VALUE + ply`
(with `MATE_VALUE = 10000`) if that side is in check (checkmate), and `0`
(stalemate) otherwise. -/
theorem pvs_empty_moves_mate_or_stalemate
    (recP : Engine → Board → Color → Nat → Int → Int → Nat → Option Move →
      Bool → Option (Int × Engine × Board))
    (lmr : Nat → Nat → Nat) (e : Engine) (b : Board) (color : Color)
    (depth : Nat) (alpha beta : Int) (ply : Nat) (prev : Option Move)
    (in_check : Bool) (hash : Nat) (alpha_orig : Int) (tt_best : Option Move)
    (hin : in_check = b.in_check color)
    (hml : (generate_moves_fast b color).1 = []) :
    pvsGen recP lmr e b color depth alpha beta ply prev in_check hash
        alpha_orig tt_best =
      some ((if b.in_check color then -MATE_VALUE + (ply : Int) else 0), e,
        (generate_moves_fast b color).2) := by
  unfold pvsGen
  simp only [hml, List.length_nil, if_true]
  subst hin
  cases hc : b.in_check color <;> simp [hc]

/-- The checkmate position for the C5 witness: Black Kh8, White Qg7
guarded by Kg6, Black to move. -/
def boardC5 : Board where
  squares := fun y x =>
    if y = 7 ∧ x = 7 then some { piece_type := PieceType.King, color := Color.Black }
    else if y = 6 ∧ x = 6 then some { piece_type := PieceType.Queen, color := Color.White }
    else if y = 5 ∧ x = 6 then some { piece_type := PieceType.King, color := Color.White }
    else none
  bitboards := fun c p =>
    if c = 0 ∧ p = 4 then 2 ^ 54
    else if c = 0 ∧ p = 5 then 2 ^ 46
    else if c = 1 ∧ p = 5 then 2 ^ 63
    else 0
  hash := 1
  en_passant := none
  castling := fun _ _ => false

/-- A fresh engine for the C5 witness. -/
def engineC5 : Engine where
  tt := Table.newTable 16
  killers := []
  quiet_history := fun _ _ => 0
  capture_history := fun _ _ => 0
  cont_history := fun _ => 0
  search_history := []
  stop_flag := false

set_option maxRecDepth 10000 in
/-- Witness for C5: in the `boardC5` checkmate the move list is empty,
the side to move is in check, and the search returns `-10000 + ply`. -/
theorem pvs_empty_moves_mate_or_stalemate_witness :
    (true = boardC5.in_check Color.Black) ∧
    (generate_moves_fast boardC5 Color.Black).1 = [] ∧
    pvsGen (fun _ _ _ _ _ _ _ _ _ => none) (fun _ _ => 0) engineC5 boardC5
        Color.Black 1 (-30000) 30000 1 none true 0 (-30000) none =
      some ((if boardC5.in_check Color.Black then -MATE_VALUE + ((1 : Nat) : Int)
             else 0), engineC5, (generate_moves_fast boardC5 Color.Black).2) :=
  ⟨by decide, by decide,
   pvs_empty_moves_mate_or_stalemate (fun _ _ _ _ _ _ _ _ _ => none)
     (fun _ _ => 0) engineC5 boardC5 Color.Black 1 (-30000) 30000 1 none true
     0 (-30000) none (by decide) (by decide)⟩

/-! ## engine.rs: the late-move-reduction amount (claim C6)

`Engine::lmr_value` computes over `f64`; it is modelled over `ℝ` (the
`as i32` cast truncates, which on the nonnegative values here is the
floor). -/

/-- `Engine::lmr_value(depth, idx)`. -/
noncomputable def lmr_value (depth idx : Nat) : Nat :=
  if depth < 3 ∨ idx < 3 then 0
  else
    let d := Real.log depth
    let m := Real.log ((idx : ℝ) + 1)
    let r : Int := ⌊d * m / 1.5⌋
    let r := if r < 1 then 1 else r
    let r := if r > (depth : Int) - 1 then (depth : Int) - 1 else r
    r.toNat

/-- The reduction formula claimed by the spec:
`round(ln(depth) * ln(index + 1) / 1.5)`. -/
noncomputable def lmrClaim (depth idx : Nat) : Int :=
  round (Real.log depth * Real.log ((idx : ℝ) + 1) / 1.5)

theorem log_ratio_lower (x : ℝ) (hx : 0 < x) : 1 - 1/x ≤ Real.log x := by
  have h := Real.log_le_sub_one_of_pos (show (0:ℝ) < x⁻¹ by positivity)
  rw [Real.log_inv] at h
  rw [one_div]
  linarith

theorem log3_bounds : (1.09 : ℝ) ≤ Real.log 3 ∧ Real.log 3 ≤ 1.11 := by
  have l2a := Real.log_two_gt_d9
  have l2b := Real.log_two_lt_d9
  have h98a : Real.log ((9:ℝ)/8) ≤ 9/8 - 1 :=
    Real.log_le_sub_one_of_pos (by norm_num)
  have h98b : 1 - 1/((9:ℝ)/8) ≤ Real.log ((9:ℝ)/8) :=
    log_ratio_lower _ (by norm_num)
  have h9 : Real.log ((9:ℝ)/8) = Real.log 9 - Real.log 8 :=
    Real.log_div (by norm_num) (by norm_num)
  have h9p : Real.log (9:ℝ) = 2 * Real.log 3 := by
    rw [show (9:ℝ) = 3 ^ 2 by norm_num, Real.log_pow]
    push_cast
    ring
  have h8p : Real.log (8:ℝ) = 3 * Real.log 2 := by
    rw [show (8:ℝ) = 2 ^ 3 by norm_num, Real.log_pow]
    push_cast
    ring
  constructor <;> [linarith; linarith]

theorem log10_bounds : (2.27 : ℝ) ≤ Real.log 10 ∧ Real.log 10 ≤ 2.33 := by
  have l2a := Real.log_two_gt_d9
  have l2b := Real.log_two_lt_d9
  have h54a : Real.log ((5:ℝ)/4) ≤ 5/4 - 1 :=
    Real.log_le_sub_one_of_pos (by norm_num)
  have h54b : 1 - 1/((5:ℝ)/4) ≤ Real.log ((5:ℝ)/4) :=
    log_ratio_lower _ (by norm_num)
  have h54 : Real.log ((5:ℝ)/4) = Real.log 5 - Real.log 4 :=
    Real.log_div (by norm_num) (by norm_num)
  have h4p : Real.log (4:ℝ) = 2 * Real.log 2 := by
    rw [show (4:ℝ) = 2 ^ 2 by norm_num, Real.log_pow]
    push_cast
    ring
  have h10 : Real.log (10:ℝ) = Real.log 2 + Real.log 5 := by
    rw [show (10:ℝ) = 2 * 5 by norm_num, Real.log_mul (by norm_num) (by norm_num)]
  constructor <;> [linarith; linarith]

theorem log11_bounds : (2.36 : ℝ) ≤ Real.log 11 ∧ Real.log 11 ≤ 2.43 := by
  obtain ⟨h10a, h10b⟩ := log10_bounds
  have ha : Real.log ((11:ℝ)/10) ≤ 11/10 - 1 :=
    Real.log_le_sub_one_of_pos (by norm_num)
  have hb : 1 - 1/((11:ℝ)/10) ≤ Real.log ((11:ℝ)/10) := by
    have := log_ratio_lower ((11:ℝ)/10) (by norm_num)
    linarith
  have h1110 : Real.log ((11:ℝ)/10) = Real.log 11 - Real.log 10 :=
    Real.log_div (by norm_num) (by norm_num)
  have hquot : (1 : ℝ) - 1/((11:ℝ)/10) = 1 - 10/11 := by norm_num
  rw [hquot] at hb
  constructor <;> [linarith; linarith]

/-- **C6** (counterexample).  The PVS loop reduces a late quiet move at
sort index `idx` by `lmr_value depth (idx + 1)`
(= `clamp(trunc(ln(depth)·ln(idx+2)/1.5), 1, depth-1)`), not by the
claimed `round(ln(depth)·ln(idx+1)/1.5)`: at `depth = 3`, `idx = 9` the
claim gives `2` but the code reduces by `1`. -/
theorem lmr_reduction_counterexample :
    lmrClaim 3 9 = 2 ∧ (lmr_value 3 (9 + 1) : Int) = 1 := by
  obtain ⟨h3a, h3b⟩ := log3_bounds
  obtain ⟨h10a, h10b⟩ := log10_bounds
  obtain ⟨h11a, h11b⟩ := log11_bounds
  have h3pos : (0:ℝ) ≤ Real.log 3 := by linarith
  have h10pos : (0:ℝ) ≤ Real.log 10 := by linarith
  have h11pos : (0:ℝ) ≤ Real.log 11 := by linarith
  have hp10a : (1.09 : ℝ) * 2.27 ≤ Real.log 3 * Real.log 10 :=
    mul_le_mul h3a h10a (by norm_num) h3pos
  have hp10b : Real.log 3 * Real.log 10 ≤ 1.11 * 2.33 :=
    mul_le_mul h3b h10b h10pos (by norm_num)
  have hp11a : (1.09 : ℝ) * 2.36 ≤ Real.log 3 * Real.log 11 :=
    mul_le_mul h3a h11a (by norm_num) h3pos
  have hp11b : Real.log 3 * Real.log 11 ≤ 1.11 * 2.43 :=
    mul_le_mul h3b h11b h11pos (by norm_num)
  constructor
  · unfold lmrClaim
    rw [show ((9:ℕ):ℝ) + 1 = 10 by norm_num,
      show ((3:ℕ):ℝ) = 3 by norm_num, round_eq]
    rw [Int.floor_eq_iff]
    constructor
    · push_cast
      norm_num at hp10a hp10b ⊢
      linarith
    · push_cast
      norm_num at hp10a hp10b ⊢
      linarith
  · unfold lmr_value
    rw [if_neg (by omega)]
    rw [show ((9 + 1 : ℕ):ℝ) + 1 = 11 by norm_num,
      show ((3:ℕ):ℝ) = 3 by norm_num]
    simp only []
    have hfl : ⌊Real.log 3 * Real.log 11 / 1.5⌋ = 1 := by
      rw [Int.floor_eq_iff]
      constructor
      · push_cast
        norm_num at hp11a hp11b ⊢
        linarith
      · push_cast
        norm_num at hp11a hp11b ⊢
        linarith
    rw [hfl]
    norm_num

/-- **C6** (amended).  For `depth > 2` and sort index `idx ≥ 3` (the
guard under which `pvs` applies the reduction), the reduction
`lmr_value depth (idx + 1)` equals
`clamp(⌊ln(depth)·ln(idx+2)/1.5⌋, 1, depth-1)`. -/
theorem lmr_reduction_amended (depth idx : Nat) (hd : 2 < depth)
    (hi : 3 ≤ idx) :
    (lmr_value depth (idx + 1) : Int) =
      min (max ⌊Real.log depth * Real.log ((idx : ℝ) + 2) / 1.5⌋ 1)
        ((depth : Int) - 1) := by
  unfold lmr_value
  rw [if_neg (by omega)]
  rw [show ((idx + 1 : ℕ):ℝ) + 1 = (idx : ℝ) + 2 by push_cast; ring]
  simp only []
  have hdc : (2 : Int) ≤ (depth : Int) := by omega
  generalize ⌊Real.log (depth : ℝ) * Real.log ((idx : ℝ) + 2) / 1.5⌋ = r
  split_ifs <;> rw [Int.toNat_of_nonneg (by omega)] <;> omega

/-- Witness for the amended C6 theorem at `depth = 3`, `idx = 3`. -/
theorem lmr_reduction_amended_witness :
    2 < 3 ∧ 3 ≤ 3 ∧
    (lmr_value 3 (3 + 1) : Int) =
      min (max ⌊Real.log 3 * Real.log (((3:ℕ) : ℝ) + 2) / 1.5⌋ 1)
        (((3:ℕ) : Int) - 1) :=
  ⟨by decide, by decide, by
    have h := lmr_reduction_amended 3 3 (by decide) (by decide)
    rw [show Real.log ((3:ℕ) : ℝ) = Real.log 3 by norm_num] at h
    exact h⟩

end Chessmind
